import Mathlib

/-!
Verification of the nanobot/zerobot "universe" federation fabric.

This file gives a shallow embedding of the registry ledger state machine
(`nanobot/universe/registry_state.py` and the request handlers of
`nanobot/universe/registry_server.py`), of the node service dispatch
(`nanobot/universe/node_server.py`), of the delegation client scoring
(`nanobot/universe/public_client.py`) and of the relay forwarding state
machine (`zerobot/universe/relay_server.py`), together with theorems that
settle the specification claims about those components.

Python dictionaries are modelled as association lists with
first-occurrence semantics (`dlookup`, `dinsert`, `dremove`, `dmodify`),
Python `int` as `Int`, and timestamps / float arithmetic as `Rat`.
Python truthiness of payload values is modelled by `PyVal.truthy`.
-/

/-- A small model of Python values as they occur in JSON payloads; only
truthiness and equality matter for the verified properties. -/
inductive PyVal where
  | none
  | bool (b : Bool)
  | int (n : Int)
  | str (s : String)
  deriving DecidableEq, Repr

/-- Python truthiness: `None`, `False`, `0` and `""` are falsy. -/
def PyVal.truthy : PyVal → Bool
  | .none => false
  | .bool b => b
  | .int n => n != 0
  | .str s => s != ""

/-- Python `str()` rendering of a payload value (used in error messages). -/
def PyVal.render : PyVal → String
  | .none => "None"
  | .bool b => if b then "True" else "False"
  | .int n => toString n
  | .str s => s

/-- Dictionary lookup on an association list (first occurrence wins,
matching Python `dict` semantics under unique keys). -/
def dlookup (k : String) : List (String × α) → Option α
  | [] => Option.none
  | (k₁, v) :: rest => if k₁ = k then some v else dlookup k rest

/-- Dictionary write `d[k] = v`: replace the first binding of `k`
in place, or append a fresh binding at the end (insertion order). -/
def dinsert (k : String) (v : α) : List (String × α) → List (String × α)
  | [] => [(k, v)]
  | (k₁, v₁) :: rest => if k₁ = k then (k, v) :: rest else (k₁, v₁) :: dinsert k v rest

/-- Dictionary `d.pop(k, None)`: drop the first binding of `k`. -/
def dremove (k : String) : List (String × α) → List (String × α)
  | [] => []
  | (k₁, v₁) :: rest => if k₁ = k then rest else (k₁, v₁) :: dremove k rest

/-- In-place mutation of the entry bound to `k` (Python `d[k].field = …`). -/
def dmodify (k : String) (f : α → α) : List (String × α) → List (String × α)
  | [] => []
  | (k₁, v₁) :: rest => if k₁ = k then (k₁, f v₁) :: rest else (k₁, v₁) :: dmodify k f rest

theorem dlookup_dinsert_self (k : String) (v : α) (l : List (String × α)) :
    dlookup k (dinsert k v l) = some v := by
  induction l with
  | nil => simp [dinsert, dlookup]
  | cons hd tl ih =>
    obtain ⟨k₁, v₁⟩ := hd
    by_cases h : k₁ = k <;> simp [dinsert, dlookup, h, ih]

theorem dlookup_dinsert_ne (k k₂ : String) (v : α) (l : List (String × α)) (h : k₂ ≠ k) :
    dlookup k₂ (dinsert k v l) = dlookup k₂ l := by
  have h' : k ≠ k₂ := Ne.symm h
  induction l with
  | nil => simp [dinsert, dlookup, h']
  | cons hd tl ih =>
    obtain ⟨k₁, v₁⟩ := hd
    by_cases h₁ : k₁ = k
    · subst h₁
      simp [dinsert, dlookup, h']
    · by_cases h₂ : k₁ = k₂ <;> simp [dinsert, dlookup, h, h₁, h₂, ih]

theorem dlookup_dremove_ne (k k₂ : String) (l : List (String × α)) (h : k₂ ≠ k) :
    dlookup k₂ (dremove k l) = dlookup k₂ l := by
  have h' : k ≠ k₂ := Ne.symm h
  induction l with
  | nil => simp [dremove]
  | cons hd tl ih =>
    obtain ⟨k₁, v₁⟩ := hd
    by_cases h₁ : k₁ = k
    · subst h₁
      simp [dremove, dlookup, h']
    · by_cases h₂ : k₁ = k₂ <;> simp [dremove, dlookup, h, h₁, h₂, ih]

theorem dlookup_dmodify_self (k : String) (f : α → α) (l : List (String × α)) :
    dlookup k (dmodify k f l) = (dlookup k l).map f := by
  induction l with
  | nil => simp [dmodify, dlookup]
  | cons hd tl ih =>
    obtain ⟨k₁, v₁⟩ := hd
    by_cases h : k₁ = k <;> simp [dmodify, dlookup, h, ih]

theorem dlookup_dmodify_ne (k k₂ : String) (f : α → α) (l : List (String × α)) (h : k₂ ≠ k) :
    dlookup k₂ (dmodify k f l) = dlookup k₂ l := by
  have h' : k ≠ k₂ := Ne.symm h
  induction l with
  | nil => simp [dmodify]
  | cons hd tl ih =>
    obtain ⟨k₁, v₁⟩ := hd
    by_cases h₁ : k₁ = k
    · subst h₁
      simp [dmodify, dlookup, h']
    · by_cases h₂ : k₁ = k₂ <;> simp [dmodify, dlookup, h, h₁, h₂, ih]

theorem isSome_dlookup_dmodify (k k₂ : String) (f : α → α) (l : List (String × α)) :
    (dlookup k₂ (dmodify k f l)).isSome = (dlookup k₂ l).isSome := by
  by_cases h : k₂ = k
  · subst h; rw [dlookup_dmodify_self]; cases dlookup k₂ l <;> simp
  · rw [dlookup_dmodify_ne _ _ _ _ h]

theorem mem_dmodify (k : String) (f : α → α) (l : List (String × α)) (x : String × α)
    (hx : x ∈ dmodify k f l) :
    x ∈ l ∨ ∃ v, dlookup k l = some v ∧ x = (k, f v) := by
  induction l with
  | nil => simp [dmodify] at hx
  | cons hd tl ih =>
    obtain ⟨k₁, v₁⟩ := hd
    by_cases h : k₁ = k
    · subst h
      simp only [dmodify, if_pos rfl] at hx
      rcases List.mem_cons.mp hx with hx₁ | hx₁
      · exact Or.inr ⟨v₁, by simp [dlookup], hx₁⟩
      · exact Or.inl (List.mem_cons_of_mem _ hx₁)
    · simp only [dmodify, if_neg h] at hx
      rcases List.mem_cons.mp hx with hx₁ | hx₁
      · exact Or.inl (by simp [hx₁])
      · rcases ih hx₁ with h₁ | ⟨v, hv, hxv⟩
        · exact Or.inl (List.mem_cons_of_mem _ h₁)
        · exact Or.inr ⟨v, by simp [dlookup, h, hv], hxv⟩

theorem dlookup_mem (k : String) (l : List (String × α)) (v : α)
    (h : dlookup k l = some v) : (k, v) ∈ l := by
  induction l with
  | nil => simp [dlookup] at h
  | cons hd tl ih =>
    obtain ⟨k₁, v₁⟩ := hd
    by_cases h₁ : k₁ = k
    · subst h₁
      have hv : v₁ = v := by simpa [dlookup] using h
      subst hv
      exact List.mem_cons_self _ _
    · simp only [dlookup, if_neg h₁] at h
      exact List.mem_cons_of_mem _ (ih h)

theorem dlookup_eq_none_of_not_mem_keys (k : String) (l : List (String × α))
    (h : k ∉ l.map Prod.fst) : dlookup k l = Option.none := by
  induction l with
  | nil => rfl
  | cons hd tl ih =>
    obtain ⟨k₁, v₁⟩ := hd
    simp only [List.map_cons, List.mem_cons] at h
    push_neg at h
    have hne : ¬k₁ = k := fun he => h.1 he.symm
    simp [dlookup, hne, ih h.2]

theorem keys_dmodify (k : String) (f : α → α) (l : List (String × α)) :
    (dmodify k f l).map Prod.fst = l.map Prod.fst := by
  induction l with
  | nil => rfl
  | cons hd tl ih =>
    obtain ⟨k₁, v₁⟩ := hd
    by_cases h : k₁ = k <;> simp [dmodify, h, ih]

theorem keys_dremove_sublist (k : String) (l : List (String × α)) :
    ((dremove k l).map Prod.fst).Sublist (l.map Prod.fst) := by
  induction l with
  | nil => simp [dremove]
  | cons hd tl ih =>
    obtain ⟨k₁, v₁⟩ := hd
    by_cases h : k₁ = k
    · simp only [dremove, if_pos h, List.map_cons]
      exact List.Sublist.cons _ (List.Sublist.refl _)
    · simp only [dremove, if_neg h, List.map_cons]
      exact ih.cons₂ _

theorem dlookup_dremove_self_of_nodup (k : String) (l : List (String × α))
    (hnd : (l.map Prod.fst).Nodup) : dlookup k (dremove k l) = Option.none := by
  induction l with
  | nil => rfl
  | cons hd tl ih =>
    obtain ⟨k₁, v₁⟩ := hd
    simp only [List.map_cons, List.nodup_cons] at hnd
    by_cases h : k₁ = k
    · subst h
      simp only [dremove, if_pos rfl]
      exact dlookup_eq_none_of_not_mem_keys _ _ hnd.1
    · simp [dremove, dlookup, h, ih hnd.2]

theorem keys_dinsert_of_mem (k : String) (v : α) (l : List (String × α))
    (hk : k ∈ l.map Prod.fst) : (dinsert k v l).map Prod.fst = l.map Prod.fst := by
  induction l with
  | nil => simp at hk
  | cons hd tl ih =>
    obtain ⟨k₁, v₁⟩ := hd
    by_cases h : k₁ = k
    · subst h; simp [dinsert]
    · simp only [List.map_cons, List.mem_cons] at hk
      rcases hk with hk | hk
      · exact absurd hk.symm h
      · simp [dinsert, h, ih hk]

theorem keys_dinsert_of_not_mem (k : String) (v : α) (l : List (String × α))
    (hk : k ∉ l.map Prod.fst) : (dinsert k v l).map Prod.fst = l.map Prod.fst ++ [k] := by
  induction l with
  | nil => simp [dinsert]
  | cons hd tl ih =>
    obtain ⟨k₁, v₁⟩ := hd
    simp only [List.map_cons, List.mem_cons] at hk
    push_neg at hk
    have hne : ¬k₁ = k := fun he => hk.1 he.symm
    simp [dinsert, hne, ih hk.2]

theorem nodup_keys_dinsert (k : String) (v : α) (l : List (String × α))
    (hnd : (l.map Prod.fst).Nodup) : ((dinsert k v l).map Prod.fst).Nodup := by
  by_cases hk : k ∈ l.map Prod.fst
  · rw [keys_dinsert_of_mem k v l hk]; exact hnd
  · rw [keys_dinsert_of_not_mem k v l hk]
    simp only [List.nodup_append, List.nodup_singleton]
    refine ⟨hnd, by simp, ?_⟩
    intro a ha hak
    simp only [List.mem_singleton] at hak
    subst hak
    exact hk ha

theorem nodup_keys_dremove (k : String) (l : List (String × α))
    (hnd : (l.map Prod.fst).Nodup) : ((dremove k l).map Prod.fst).Nodup :=
  (keys_dremove_sublist k l).nodup hnd

/-! ## Registry data model (`nanobot/universe/registry_state.py`) -/

/-- One directory entry of the registry (`RegistryEntry` dataclass).
Python `int` counters are `Int`; timestamps are `Rat` seconds. -/
structure RegistryEntry where
  nodeId : String
  nodeName : String := ""
  endpointUrl : String := ""
  capabilities : List (String × PyVal) := []
  pricePoints : Int := 1
  online : Bool := false
  lastSeenTs : Rat := 0
  completedTasks : Int := 0
  earnedPoints : Int := 0
  balance : Int := 0
  spentPoints : Int := 0
  heldPoints : Int := 0
  successCount : Int := 0
  failCount : Int := 0
  totalLatencyMs : Int := 0
  deriving DecidableEq, Repr

/-- A points reservation: the dict
`{id, payerNode, providerNode, points, createdTs}` stored in
`RegistryState.reservations`. -/
structure Reservation where
  rid : String
  payerNode : String
  providerNode : String
  points : Int
  createdTs : Rat
  deriving DecidableEq, Repr

/-- The mutable registry state: node directory, capability index and
reservation table (the knowledge-pack store plays no role in the claims
under verification and is omitted). -/
structure RegistryState where
  nodes : List (String × RegistryEntry) := []
  capIndex : List (String × List String) := []
  reservations : List (String × Reservation) := []
  deriving DecidableEq, Repr

/-- The empty registry (`RegistryState.__init__`). -/
def RegistryState.empty : RegistryState := {}

/-- Balance of a node, `0` when the node is unknown. -/
def balanceOf (st : RegistryState) (nid : String) : Int :=
  match dlookup nid st.nodes with
  | some e => e.balance
  | Option.none => 0

/-- Held points of a node, `0` when the node is unknown. -/
def heldOf (st : RegistryState) (nid : String) : Int :=
  match dlookup nid st.nodes with
  | some e => e.heldPoints
  | Option.none => 0

/-- Spent points of a node, `0` when the node is unknown. -/
def spentOf (st : RegistryState) (nid : String) : Int :=
  match dlookup nid st.nodes with
  | some e => e.spentPoints
  | Option.none => 0

/-- Earned points of a node, `0` when the node is unknown. -/
def earnedOf (st : RegistryState) (nid : String) : Int :=
  match dlookup nid st.nodes with
  | some e => e.earnedPoints
  | Option.none => 0

/-- Completed-task counter of a node, `0` when the node is unknown. -/
def completedOf (st : RegistryState) (nid : String) : Int :=
  match dlookup nid st.nodes with
  | some e => e.completedTasks
  | Option.none => 0

/-- `RegistryState.reserve`: debit the payer, record the held points and
insert the reservation.  The fresh `uuid4` id and the current time are
passed in as parameters.  Returns `none` exactly when the Python method
returns `None` (and then nothing has been mutated). -/
def reserve (st : RegistryState) (payerNodeId providerNodeId : String) (points : Int)
    (rid : String) (now : Rat) : Option RegistryState :=
  match dlookup payerNodeId st.nodes, dlookup providerNodeId st.nodes with
  | some payer, some _ =>
    if points ≤ 0 then Option.none
    else if payer.balance < points then Option.none
    else some { st with
      nodes := dmodify payerNodeId (fun p => { p with
        balance := p.balance - points,
        heldPoints := p.heldPoints + points,
        lastSeenTs := now }) st.nodes,
      reservations := dinsert rid
        ⟨rid, payerNodeId, providerNodeId, points, now⟩ st.reservations }
  | _, _ => Option.none

/-- `RegistryState.commit`: pop the reservation, then settle payer and
provider.  Mirrors the source exactly: the reservation is popped *before*
the validity checks, and the payer's held points are clamped at zero
(`max(0, payer.held_points - points)`). -/
def commit (st : RegistryState) (reservationId : String) (now : Rat) :
    Bool × RegistryState :=
  match dlookup reservationId st.reservations with
  | Option.none => (false, st)
  | some item =>
    let st₁ : RegistryState := { st with reservations := dremove reservationId st.reservations }
    if item.payerNode = "" ∨ item.providerNode = "" ∨ item.points ≤ 0 then (false, st₁)
    else
      match dlookup item.payerNode st₁.nodes, dlookup item.providerNode st₁.nodes with
      | some _, some _ =>
        let st₂ : RegistryState := { st₁ with
          nodes := dmodify item.payerNode (fun p => { p with
            heldPoints := max 0 (p.heldPoints - item.points),
            spentPoints := p.spentPoints + item.points,
            lastSeenTs := now }) st₁.nodes }
        let st₃ : RegistryState := { st₂ with
          nodes := dmodify item.providerNode (fun p => { p with
            balance := p.balance + item.points,
            earnedPoints := p.earnedPoints + item.points,
            completedTasks := p.completedTasks + 1,
            lastSeenTs := now }) st₂.nodes }
        (true, st₃)
      | _, _ => (false, st₁)

/-- `RegistryState.cancel`: pop the reservation and refund the payer
(balance restored, held points clamped at zero). -/
def cancel (st : RegistryState) (reservationId : String) (now : Rat) :
    Bool × RegistryState :=
  match dlookup reservationId st.reservations with
  | Option.none => (false, st)
  | some item =>
    let st₁ : RegistryState := { st with reservations := dremove reservationId st.reservations }
    if item.payerNode = "" ∨ item.points ≤ 0 then (false, st₁)
    else
      match dlookup item.payerNode st₁.nodes with
      | Option.none => (false, st₁)
      | some _ =>
        (true, { st₁ with
          nodes := dmodify item.payerNode (fun p => { p with
            balance := p.balance + item.points,
            heldPoints := max 0 (p.heldPoints - item.points),
            lastSeenTs := now }) st₁.nodes })

/-- The payer-debit half of `RegistryState.award` (`if payer_node_id:` in
the source): fails on an unknown payer or insufficient balance, is a
no-op when no payer is named (including the falsy empty string). -/
def awardPayerStep (st : RegistryState) (points : Int)
    (payerNodeId : Option String) (now : Rat) : Option RegistryState :=
  match payerNodeId with
  | Option.none => some st
  | some pid =>
    if pid = "" then some st
    else
      match dlookup pid st.nodes with
      | Option.none => Option.none
      | some payer =>
        if payer.balance < points then Option.none
        else some { st with
          nodes := dmodify pid (fun p => { p with
            balance := p.balance - points,
            spentPoints := p.spentPoints + points,
            lastSeenTs := now }) st.nodes }

/-- `RegistryState.award`: legacy single-call pay; with a payer it debits
the payer first (failing on insufficient balance), then credits the
provider. -/
def award (st : RegistryState) (nodeId : String) (points : Int)
    (payerNodeId : Option String) (now : Rat) : Bool × RegistryState :=
  match dlookup nodeId st.nodes with
  | Option.none => (false, st)
  | some _ =>
    match awardPayerStep st points payerNodeId now with
    | Option.none => (false, st)
    | some st₁ =>
      (true, { st₁ with
        nodes := dmodify nodeId (fun e => { e with
          completedTasks := e.completedTasks + 1,
          earnedPoints := e.earnedPoints + points,
          balance := e.balance + points,
          lastSeenTs := now }) st₁.nodes })

/-- The keep-condition of `RegistryState.expire_reservations`: a
reservation survives the sweep unless its `createdTs` is truthy
(non-zero) and strictly older than `now - ttl` (`created and created <
cutoff` in the source). -/
def reservationExpired (ttl : Int) (now : Rat) (r : Reservation) : Bool :=
  r.createdTs ≠ 0 ∧ r.createdTs < now - (ttl : Rat)

/-- One refund step of the expiry sweep: return the points to the payer
and clamp the held points at zero; skipped when the reservation is
malformed or the payer is unknown. -/
def expireRefund (now : Rat) (ns : List (String × RegistryEntry))
    (r : Reservation) : List (String × RegistryEntry) :=
  if r.payerNode = "" ∨ r.points ≤ 0 then ns
  else
    match dlookup r.payerNode ns with
    | Option.none => ns
    | some _ =>
      dmodify r.payerNode (fun p => { p with
        balance := p.balance + r.points,
        heldPoints := max 0 (p.heldPoints - r.points),
        lastSeenTs := now }) ns

/-- `RegistryState.expire_reservations`: drop every expired reservation
and refund each one's payer. -/
def expireReservations (st : RegistryState) (ttl : Int) (now : Rat) : RegistryState :=
  if ttl ≤ 0 then st
  else
    let expired := st.reservations.filter (fun kr => reservationExpired ttl now kr.2)
    let remaining := st.reservations.filter (fun kr => !(reservationExpired ttl now kr.2))
    { st with
      reservations := remaining,
      nodes := expired.foldl (fun ns kr => expireRefund now ns kr.2) st.nodes }

/-! ## Registry server operations (`registry_server.py` `_handle`)

The server wrappers add the payload validation that guards each state
mutation (`if not node_id or not payer_node or points <= 0: error`…).
They are the operations a client can actually trigger. -/

/-- The `reserve` request handler (state effect): validates the payload,
then calls `RegistryState.reserve`; a failed reserve leaves the state
unchanged. -/
def serverReserve (st : RegistryState) (nodeId payerNode : String) (points : Int)
    (rid : String) (now : Rat) : RegistryState :=
  if nodeId = "" ∨ payerNode = "" ∨ points ≤ 0 then st
  else
    match reserve st payerNode nodeId points rid now with
    | some st₁ => st₁
    | Option.none => st

/-- The `commit` request handler (state effect). -/
def serverCommit (st : RegistryState) (rid : String) (now : Rat) : RegistryState :=
  if rid = "" then st else (commit st rid now).2

/-- The `cancel` request handler (state effect). -/
def serverCancel (st : RegistryState) (rid : String) (now : Rat) : RegistryState :=
  if rid = "" then st else (cancel st rid now).2

/-- The `award` request handler (state effect): the server rejects
`points <= 0` and an empty `nodeId` before touching the ledger. -/
def serverAward (st : RegistryState) (nodeId : String) (points : Int)
    (payerNode : Option String) (now : Rat) : RegistryState :=
  if nodeId = "" ∨ points ≤ 0 then st
  else (award st nodeId points payerNode now).2

/-- One ledger operation as issued through the registry server. -/
inductive LedgerOp where
  | reserveOp (nodeId payerNode : String) (points : Int) (rid : String) (now : Rat)
  | commitOp (rid : String) (now : Rat)
  | cancelOp (rid : String) (now : Rat)
  | awardOp (nodeId : String) (points : Int) (payerNode : Option String) (now : Rat)

/-- Apply one ledger operation (succeeding or failing). -/
def applyLedgerOp (st : RegistryState) : LedgerOp → RegistryState
  | .reserveOp nodeId payerNode points rid now => serverReserve st nodeId payerNode points rid now
  | .commitOp rid now => serverCommit st rid now
  | .cancelOp rid now => serverCancel st rid now
  | .awardOp nodeId points payerNode now => serverAward st nodeId points payerNode now

/-- Apply a sequence of ledger operations in order. -/
def applyLedgerOps (st : RegistryState) (ops : List LedgerOp) : RegistryState :=
  ops.foldl applyLedgerOp st

/-- Every node of the directory has non-negative `balance` and
`heldPoints`. -/
def NonNegLedger (st : RegistryState) : Prop :=
  ∀ ke ∈ st.nodes, 0 ≤ (ke : String × RegistryEntry).2.balance ∧ 0 ≤ ke.2.heldPoints

instance (st : RegistryState) : Decidable (NonNegLedger st) := by
  unfold NonNegLedger; infer_instance

/-- Non-negativity of the two clamped ledger fields of one entry. -/
def EntryNonNeg (e : RegistryEntry) : Prop := 0 ≤ e.balance ∧ 0 ≤ e.heldPoints

theorem nonneg_nodes_dmodify (ns : List (String × RegistryEntry)) (k : String)
    (f : RegistryEntry → RegistryEntry)
    (h : ∀ ke ∈ ns, EntryNonNeg (ke : String × RegistryEntry).2)
    (hf : ∀ v, dlookup k ns = some v → EntryNonNeg (f v)) :
    ∀ ke ∈ dmodify k f ns, EntryNonNeg (ke : String × RegistryEntry).2 := by
  intro ke hke
  rcases mem_dmodify k f ns ke hke with hm | ⟨v, hv, hkev⟩
  · exact h ke hm
  · rw [hkev]; exact hf v hv

theorem nonNeg_reserve (st st₁ : RegistryState) (payerNodeId providerNodeId : String)
    (points : Int) (rid : String) (now : Rat)
    (hn : NonNegLedger st)
    (h : reserve st payerNodeId providerNodeId points rid now = some st₁) :
    NonNegLedger st₁ := by
  unfold reserve at h
  cases hp : dlookup payerNodeId st.nodes with
  | none => rw [hp] at h; cases hpr : dlookup providerNodeId st.nodes <;> simp [hpr] at h
  | some payer =>
    rw [hp] at h
    cases hpr : dlookup providerNodeId st.nodes with
    | none => rw [hpr] at h; simp at h
    | some prov =>
      rw [hpr] at h
      by_cases h₀ : points ≤ 0
      · simp [h₀] at h
      · by_cases h₁ : payer.balance < points
        · simp [h₀, h₁] at h
        · simp only [h₀, h₁, if_false, Option.some.injEq] at h
          subst h
          intro ke hke
          refine nonneg_nodes_dmodify st.nodes payerNodeId _ hn ?_ ke hke
          intro v hv
          rw [hp] at hv
          injection hv with hv
          subst hv
          rcases hn _ (dlookup_mem _ _ _ hp) with ⟨hb, hh⟩
          have hb' : 0 ≤ payer.balance := hb
          have hh' : 0 ≤ payer.heldPoints := hh
          push_neg at h₁
          have h₀' : 0 < points := lt_of_not_le h₀
          refine ⟨?_, ?_⟩
          · show 0 ≤ payer.balance - points
            omega
          · show 0 ≤ payer.heldPoints + points
            omega


theorem nonNeg_commit (st : RegistryState) (rid : String) (now : Rat)
    (hn : NonNegLedger st) : NonNegLedger (commit st rid now).2 := by
  unfold commit
  cases hr : dlookup rid st.reservations with
  | none => simpa using hn
  | some item =>
    by_cases hbad : item.payerNode = "" ∨ item.providerNode = "" ∨ item.points ≤ 0
    · simpa [hbad] using hn
    · simp only [hbad, if_false]
      push_neg at hbad
      obtain ⟨hp₁, hp₂, hpts'⟩ := hbad
      cases hp : dlookup item.payerNode st.nodes with
      | none => simpa [hp] using hn
      | some payer =>
        cases hpr : dlookup item.providerNode st.nodes with
        | none => simpa [hp, hpr] using hn
        | some prov =>
          simp only [hp, hpr]
          have hall : ∀ ke ∈ dmodify item.payerNode (fun p => { p with
              heldPoints := max 0 (p.heldPoints - item.points),
              spentPoints := p.spentPoints + item.points,
              lastSeenTs := now }) st.nodes,
              EntryNonNeg (ke : String × RegistryEntry).2 := by
            refine nonneg_nodes_dmodify _ _ _ hn ?_
            intro v hv
            rcases hn _ (dlookup_mem _ _ _ hv) with ⟨hb, _⟩
            have hb' : 0 ≤ v.balance := hb
            exact ⟨hb', le_max_left _ _⟩
          intro ke hke
          refine nonneg_nodes_dmodify _ item.providerNode _ hall ?_ ke hke
          intro v hv
          rcases hall _ (dlookup_mem _ _ _ hv) with ⟨hb, hh⟩
          have hb' : 0 ≤ v.balance := hb
          have hh' : 0 ≤ v.heldPoints := hh
          refine ⟨?_, ?_⟩
          · show 0 ≤ v.balance + item.points
            omega
          · show 0 ≤ v.heldPoints
            omega

theorem nonNeg_cancel (st : RegistryState) (rid : String) (now : Rat)
    (hn : NonNegLedger st) : NonNegLedger (cancel st rid now).2 := by
  unfold cancel
  cases hr : dlookup rid st.reservations with
  | none => simpa using hn
  | some item =>
    by_cases hbad : item.payerNode = "" ∨ item.points ≤ 0
    · simpa [hbad] using hn
    · simp only [hbad, if_false]
      push_neg at hbad
      obtain ⟨hp₁, hpts'⟩ := hbad
      cases hp : dlookup item.payerNode st.nodes with
      | none => simpa [hp] using hn
      | some payer =>
        simp only [hp]
        intro ke hke
        refine nonneg_nodes_dmodify _ _ _ hn ?_ ke hke
        intro v hv
        rcases hn _ (dlookup_mem _ _ _ hv) with ⟨hb, _⟩
        have hb' : 0 ≤ v.balance := hb
        refine ⟨?_, le_max_left _ _⟩
        show 0 ≤ v.balance + item.points
        omega

theorem nonNeg_awardPayerStep (st st₁ : RegistryState) (points : Int)
    (payerNodeId : Option String) (now : Rat) (hn : NonNegLedger st)
    (h : awardPayerStep st points payerNodeId now = some st₁) :
    NonNegLedger st₁ := by
  cases payerNodeId with
  | none =>
    simp only [awardPayerStep] at h
    injection h with h; subst h; exact hn
  | some pid =>
    simp only [awardPayerStep] at h
    split at h
    · injection h with h
      subst h
      exact hn
    · split at h
      · exact Option.noConfusion h
      · rename_i payer hpl
        split at h
        · exact Option.noConfusion h
        · rename_i hlt
          injection h with h
          subst h
          intro ke hke
          refine nonneg_nodes_dmodify _ _ _ hn ?_ ke hke
          intro v hv
          rw [hpl] at hv
          injection hv with hv
          subst hv
          rcases hn _ (dlookup_mem _ _ _ hpl) with ⟨hb, hh⟩
          have hb' : 0 ≤ payer.balance := hb
          have hh' : 0 ≤ payer.heldPoints := hh
          push_neg at hlt
          refine ⟨?_, ?_⟩
          · show 0 ≤ payer.balance - points
            omega
          · show 0 ≤ payer.heldPoints
            omega

theorem nonNeg_award (st : RegistryState) (nodeId : String) (points : Int)
    (payerNode : Option String) (now : Rat) (hn : NonNegLedger st)
    (hpts : 0 < points) : NonNegLedger (award st nodeId points payerNode now).2 := by
  unfold award
  cases he : dlookup nodeId st.nodes with
  | none => simpa using hn
  | some e =>
    cases hps : awardPayerStep st points payerNode now with
    | none => simpa using hn
    | some st₁ =>
      have h₁ := nonNeg_awardPayerStep st st₁ points payerNode now hn hps
      intro ke hke
      refine nonneg_nodes_dmodify _ _ _ h₁ ?_ ke hke
      intro v hv
      rcases h₁ _ (dlookup_mem _ _ _ hv) with ⟨hb, hh⟩
      have hb' : 0 ≤ v.balance := hb
      have hh' : 0 ≤ v.heldPoints := hh
      refine ⟨?_, ?_⟩
      · show 0 ≤ v.balance + points
        omega
      · show 0 ≤ v.heldPoints
        omega

theorem nonNeg_applyLedgerOp (st : RegistryState) (op : LedgerOp)
    (hn : NonNegLedger st) : NonNegLedger (applyLedgerOp st op) := by
  cases op with
  | reserveOp nodeId payerNode points rid now =>
    simp only [applyLedgerOp, serverReserve]
    by_cases hg : nodeId = "" ∨ payerNode = "" ∨ points ≤ 0
    · rw [if_pos hg]; exact hn
    · rw [if_neg hg]
      cases hr : reserve st payerNode nodeId points rid now with
      | none => exact hn
      | some st₁ => exact nonNeg_reserve st st₁ payerNode nodeId points rid now hn hr
  | commitOp rid now =>
    simp only [applyLedgerOp, serverCommit]
    by_cases hg : rid = ""
    · rw [if_pos hg]; exact hn
    · rw [if_neg hg]; exact nonNeg_commit st rid now hn
  | cancelOp rid now =>
    simp only [applyLedgerOp, serverCancel]
    by_cases hg : rid = ""
    · rw [if_pos hg]; exact hn
    · rw [if_neg hg]; exact nonNeg_cancel st rid now hn
  | awardOp nodeId points payerNode now =>
    simp only [applyLedgerOp, serverAward]
    by_cases hg : nodeId = "" ∨ points ≤ 0
    · rw [if_pos hg]; exact hn
    · rw [if_neg hg]
      push_neg at hg
      exact nonNeg_award st nodeId points payerNode now hn hg.2

/-- C2: starting from any state in which every node has non-negative
`balance` and `heldPoints`, no sequence of `reserve`, `commit`, `cancel`
and `award` operations (each either succeeding or failing) ever produces
a state in which some node's `balance` or `heldPoints` is negative. -/
theorem claim_C2_ledger_nonneg (st : RegistryState) (ops : List LedgerOp)
    (hn : NonNegLedger st) : NonNegLedger (applyLedgerOps st ops) := by
  induction ops generalizing st with
  | nil => exact hn
  | cons op rest ih =>
    exact ih (applyLedgerOp st op) (nonNeg_applyLedgerOp st op hn)

/-- Witness for C2 at a concrete two-node state and a concrete
reserve/commit/cancel/award history. -/
theorem claim_C2_ledger_nonneg_witness :
    NonNegLedger (applyLedgerOps
      { nodes := [("c", { nodeId := "c", balance := 10 }), ("n", { nodeId := "n" })] }
      [ .reserveOp "n" "c" 3 "r1" 100,
        .commitOp "r1" 101,
        .reserveOp "n" "c" 4 "r2" 102,
        .cancelOp "r2" 103,
        .awardOp "n" 2 (some "c") 104,
        .commitOp "missing" 105 ]) :=
  claim_C2_ledger_nonneg _ _ (by decide)

/-! ## The reservation-backing invariant

The spec's data-model invariants (§3): every outstanding reservation is
well formed, its points are counted in the payer's `heldPoints`, and the
reservation table is a dictionary (unique keys).  `reserve` is the only
creator of reservations and establishes all of this. -/

/-- Total outstanding reserved points of one payer. -/
def resSum (l : List (String × Reservation)) (payer : String) : Int :=
  (l.map (fun kr => if kr.2.payerNode = payer then kr.2.points else 0)).sum

/-- The registry invariant: unique reservation ids; every outstanding
reservation names a known, non-empty payer and provider, carries positive
points and a positive creation time; and a payer's outstanding total is
covered by its `heldPoints`. -/
def GoodState (st : RegistryState) : Prop :=
  (st.reservations.map Prod.fst).Nodup ∧
  ∀ kr ∈ st.reservations,
    (kr : String × Reservation).2.payerNode ≠ "" ∧
    kr.2.providerNode ≠ "" ∧
    0 < kr.2.points ∧
    0 < kr.2.createdTs ∧
    (dlookup kr.2.payerNode st.nodes).isSome ∧
    (dlookup kr.2.providerNode st.nodes).isSome ∧
    resSum st.reservations kr.2.payerNode ≤ heldOf st kr.2.payerNode

instance (st : RegistryState) : Decidable (GoodState st) := by
  unfold GoodState; infer_instance

theorem resSum_cons (k : String) (r : Reservation) (tl : List (String × Reservation))
    (p : String) :
    resSum ((k, r) :: tl) p = (if r.payerNode = p then r.points else 0) + resSum tl p := by
  simp [resSum]

theorem resSum_nonneg (l : List (String × Reservation)) (p : String)
    (h : ∀ kr ∈ l, 0 < (kr : String × Reservation).2.points) : 0 ≤ resSum l p := by
  induction l with
  | nil => simp [resSum]
  | cons hd tl ih =>
    obtain ⟨k₁, r₁⟩ := hd
    rw [resSum_cons]
    have h₀ : 0 < r₁.points := h _ (List.mem_cons_self _ _)
    have h₁ := ih (fun kr hkr => h kr (List.mem_cons_of_mem _ hkr))
    by_cases hp : r₁.payerNode = p
    · rw [if_pos hp]; omega
    · rw [if_neg hp]; omega

theorem points_le_resSum (l : List (String × Reservation)) (k : String) (r : Reservation)
    (hmem : (k, r) ∈ l)
    (h : ∀ kr ∈ l, 0 < (kr : String × Reservation).2.points) :
    r.points ≤ resSum l r.payerNode := by
  induction l with
  | nil => simp at hmem
  | cons hd tl ih =>
    have hpos : ∀ kr ∈ tl, 0 < (kr : String × Reservation).2.points :=
      fun kr hkr => h kr (List.mem_cons_of_mem _ hkr)
    obtain ⟨k₁, r₁⟩ := hd
    rw [resSum_cons]
    rcases List.mem_cons.mp hmem with hmem₁ | hmem₁
    · injection hmem₁ with hk hr₁
      subst hk
      subst hr₁
      rw [if_pos rfl]
      have h₁ := resSum_nonneg tl r.payerNode hpos
      omega
    · have h₂ := ih hmem₁ hpos
      have h₀ : 0 < r₁.points := h _ (List.mem_cons_self _ _)
      by_cases hp : r₁.payerNode = r.payerNode
      · rw [if_pos hp]; omega
      · rw [if_neg hp]; omega

/-- The successful-commit state change, as performed by
`RegistryState.commit` for reservation `r` under id `rid`. -/
def commitEffect (st : RegistryState) (r : Reservation) (rid : String) (now : Rat) :
    RegistryState :=
  { st with
    reservations := dremove rid st.reservations,
    nodes := dmodify r.providerNode (fun p => { p with
        balance := p.balance + r.points,
        earnedPoints := p.earnedPoints + r.points,
        completedTasks := p.completedTasks + 1,
        lastSeenTs := now })
      (dmodify r.payerNode (fun p => { p with
        heldPoints := max 0 (p.heldPoints - r.points),
        spentPoints := p.spentPoints + r.points,
        lastSeenTs := now }) st.nodes) }

theorem commit_eq_of_wf (st : RegistryState) (rid : String) (r : Reservation) (now : Rat)
    (hr : dlookup rid st.reservations = some r)
    (h₁ : r.payerNode ≠ "") (h₂ : r.providerNode ≠ "") (h₃ : 0 < r.points)
    (pe pv : RegistryEntry)
    (hp : dlookup r.payerNode st.nodes = some pe)
    (hpv : dlookup r.providerNode st.nodes = some pv) :
    commit st rid now = (true, commitEffect st r rid now) := by
  unfold commit
  simp only [hr]
  have hbad : ¬(r.payerNode = "" ∨ r.providerNode = "" ∨ r.points ≤ 0) := by
    push_neg
    exact ⟨h₁, h₂, h₃⟩
  rw [if_neg hbad]
  rw [hp, hpv]
  rfl

/-- C1: in a registry state satisfying the spec's reservation-backing
invariant (`GoodState`, §3 of the spec), committing an outstanding
reservation `R` succeeds, removes exactly `R` from the reservation
table and, in the same step, decreases the payer's `heldPoints` by
`R.points`, increases the payer's `spentPoints` by `R.points`, and
increases the provider's `balance`, `earnedPoints` and `completedTasks`
by `R.points`, `R.points` and `1` respectively. -/
theorem claim_C1_commit_settles (st : RegistryState) (rid : String) (r : Reservation)
    (now : Rat) (hg : GoodState st) (hr : dlookup rid st.reservations = some r) :
    (commit st rid now).1 = true ∧
    dlookup rid (commit st rid now).2.reservations = Option.none ∧
    (∀ k₂, k₂ ≠ rid → dlookup k₂ (commit st rid now).2.reservations
      = dlookup k₂ st.reservations) ∧
    heldOf (commit st rid now).2 r.payerNode = heldOf st r.payerNode - r.points ∧
    spentOf (commit st rid now).2 r.payerNode = spentOf st r.payerNode + r.points ∧
    balanceOf (commit st rid now).2 r.providerNode = balanceOf st r.providerNode + r.points ∧
    earnedOf (commit st rid now).2 r.providerNode = earnedOf st r.providerNode + r.points ∧
    completedOf (commit st rid now).2 r.providerNode = completedOf st r.providerNode + 1 := by
  have hmem := dlookup_mem _ _ _ hr
  obtain ⟨hpne, hprne, hpts, hts, hpsome, hpvsome, hsum⟩ := hg.2 _ hmem
  obtain ⟨pe, hp⟩ := Option.isSome_iff_exists.mp hpsome
  obtain ⟨pv, hpv⟩ := Option.isSome_iff_exists.mp hpvsome
  have hp' : dlookup r.payerNode st.nodes = some pe := hp
  have hpv' : dlookup r.providerNode st.nodes = some pv := hpv
  have hsum' : resSum st.reservations r.payerNode ≤ heldOf st r.payerNode := hsum
  have hpts' : 0 < r.points := hpts
  have hle : r.points ≤ pe.heldPoints := by
    have h₁ := points_le_resSum st.reservations rid r hmem
      (fun kr hkr => (hg.2 kr hkr).2.2.1)
    have h₂ : heldOf st r.payerNode = pe.heldPoints := by
      unfold heldOf
      rw [hp']
    omega
  rw [commit_eq_of_wf st rid r now hr hpne hprne hpts' pe pv hp' hpv']
  refine ⟨rfl, ?_, ?_, ?_, ?_, ?_, ?_, ?_⟩
  · simp only [commitEffect]
    exact dlookup_dremove_self_of_nodup _ _ hg.1
  · intro k₂ hk₂
    simp only [commitEffect]
    exact dlookup_dremove_ne _ _ _ hk₂
  · by_cases hc : r.payerNode = r.providerNode
    · unfold heldOf
      simp only [commitEffect]
      rw [← hc, dlookup_dmodify_self, dlookup_dmodify_self, hp']
      show max 0 (pe.heldPoints - r.points) = pe.heldPoints - r.points
      exact max_eq_right (by omega)
    · unfold heldOf
      simp only [commitEffect]
      rw [dlookup_dmodify_ne _ _ _ _ hc, dlookup_dmodify_self, hp']
      show max 0 (pe.heldPoints - r.points) = pe.heldPoints - r.points
      exact max_eq_right (by omega)
  · by_cases hc : r.payerNode = r.providerNode
    · unfold spentOf
      simp only [commitEffect]
      rw [← hc, dlookup_dmodify_self, dlookup_dmodify_self, hp']
      rfl
    · unfold spentOf
      simp only [commitEffect]
      rw [dlookup_dmodify_ne _ _ _ _ hc, dlookup_dmodify_self, hp']
      rfl
  · by_cases hc : r.payerNode = r.providerNode
    · unfold balanceOf
      simp only [commitEffect]
      rw [← hc, dlookup_dmodify_self, dlookup_dmodify_self, hp']
      rfl
    · unfold balanceOf
      simp only [commitEffect]
      rw [dlookup_dmodify_self, dlookup_dmodify_ne _ _ _ _ (Ne.symm hc), hpv']
      rfl
  · by_cases hc : r.payerNode = r.providerNode
    · unfold earnedOf
      simp only [commitEffect]
      rw [← hc, dlookup_dmodify_self, dlookup_dmodify_self, hp']
      rfl
    · unfold earnedOf
      simp only [commitEffect]
      rw [dlookup_dmodify_self, dlookup_dmodify_ne _ _ _ _ (Ne.symm hc), hpv']
      rfl
  · by_cases hc : r.payerNode = r.providerNode
    · unfold completedOf
      simp only [commitEffect]
      rw [← hc, dlookup_dmodify_self, dlookup_dmodify_self, hp']
      rfl
    · unfold completedOf
      simp only [commitEffect]
      rw [dlookup_dmodify_self, dlookup_dmodify_ne _ _ _ _ (Ne.symm hc), hpv']
      rfl

/-- A concrete two-node ledger with one backed 5-point reservation,
used to witness the commit theorems on explicit inputs. -/
def sampleLedgerState : RegistryState :=
  { nodes := [("c", { nodeId := "c", balance := 0, heldPoints := 5 }),
              ("n", { nodeId := "n" })],
    reservations := [("r1", ⟨"r1", "c", "n", 5, 100⟩)] }

/-- Witness for C1: committing the backed 5-point reservation of
`sampleLedgerState` succeeds, moves 5 held points off the payer and 5
balance points onto the provider. -/
theorem claim_C1_commit_settles_witness :
    (commit sampleLedgerState "r1" 200).1 = true ∧
    heldOf (commit sampleLedgerState "r1" 200).2 "c" = heldOf sampleLedgerState "c" - 5 ∧
    balanceOf (commit sampleLedgerState "r1" 200).2 "n"
      = balanceOf sampleLedgerState "n" + 5 := by
  have h := claim_C1_commit_settles sampleLedgerState "r1" ⟨"r1", "c", "n", 5, 100⟩ 200
    (by decide) (by decide)
  exact ⟨h.1, h.2.2.2.1, h.2.2.2.2.2.1⟩

/-- C3: under the reservation-backing invariant, `commit` fails exactly
when the reservation id is not outstanding, and a failed commit leaves
the whole registry state unchanged. -/
theorem claim_C3_commit_failure (st : RegistryState) (rid : String) (now : Rat)
    (hg : GoodState st) :
    ((commit st rid now).1 = true ↔ (dlookup rid st.reservations).isSome) ∧
    ((commit st rid now).1 = false → (commit st rid now).2 = st) := by
  cases hr : dlookup rid st.reservations with
  | none =>
    have hfail : commit st rid now = (false, st) := by
      unfold commit
      rw [hr]
    refine ⟨?_, ?_⟩
    · rw [hfail]
      simp
    · intro _
      rw [hfail]
  | some r =>
    obtain ⟨hpne, hprne, hpts, hts, hpsome, hpvsome, hsum⟩ := hg.2 _ (dlookup_mem _ _ _ hr)
    obtain ⟨pe, hp⟩ := Option.isSome_iff_exists.mp hpsome
    obtain ⟨pv, hpv⟩ := Option.isSome_iff_exists.mp hpvsome
    have hok := commit_eq_of_wf st rid r now hr hpne hprne hpts pe pv hp hpv
    refine ⟨?_, ?_⟩
    · rw [hok]
      simp
    · intro hfalse
      rw [hok] at hfalse
      simp at hfalse

/-- Witness for C3: an unknown reservation id on the concrete backed
state fails and changes nothing. -/
theorem claim_C3_commit_failure_witness :
    ((commit sampleLedgerState "zzz" 7).1 = true
      ↔ (dlookup "zzz" sampleLedgerState.reservations).isSome) ∧
    ((commit sampleLedgerState "zzz" 7).1 = false →
      (commit sampleLedgerState "zzz" 7).2 = sampleLedgerState) :=
  claim_C3_commit_failure sampleLedgerState "zzz" 7 (by decide)

/-! ## The reservation expiry sweep (C4) -/

/-- Held points read directly off a node list. -/
def nsHeld (ns : List (String × RegistryEntry)) (p : String) : Int :=
  match dlookup p ns with
  | some e => e.heldPoints
  | Option.none => 0

/-- Balance read directly off a node list. -/
def nsBalance (ns : List (String × RegistryEntry)) (p : String) : Int :=
  match dlookup p ns with
  | some e => e.balance
  | Option.none => 0

theorem heldOf_eq_nsHeld (st : RegistryState) (p : String) :
    heldOf st p = nsHeld st.nodes p := rfl

theorem balanceOf_eq_nsBalance (st : RegistryState) (p : String) :
    balanceOf st p = nsBalance st.nodes p := rfl

theorem isSome_expireRefund (now : Rat) (ns : List (String × RegistryEntry))
    (r : Reservation) (q : String) :
    (dlookup q (expireRefund now ns r)).isSome = (dlookup q ns).isSome := by
  unfold expireRefund
  by_cases h₁ : r.payerNode = "" ∨ r.points ≤ 0
  · rw [if_pos h₁]
  · rw [if_neg h₁]
    cases hp : dlookup r.payerNode ns with
    | none => rfl
    | some pe => exact isSome_dlookup_dmodify _ _ _ _

theorem expireRefund_effect (now : Rat) (ns : List (String × RegistryEntry))
    (r : Reservation) (h₁ : r.payerNode ≠ "") (h₂ : 0 < r.points)
    (h₃ : (dlookup r.payerNode ns).isSome) (p : String) :
    (nsHeld (expireRefund now ns r) p
      = if p = r.payerNode then max 0 (nsHeld ns p - r.points) else nsHeld ns p) ∧
    (nsBalance (expireRefund now ns r) p
      = if p = r.payerNode then nsBalance ns p + r.points else nsBalance ns p) := by
  obtain ⟨pe, hp⟩ := Option.isSome_iff_exists.mp h₃
  have hguard : ¬(r.payerNode = "" ∨ r.points ≤ 0) := by
    push_neg
    exact ⟨h₁, h₂⟩
  unfold expireRefund
  rw [if_neg hguard, hp]
  by_cases hc : p = r.payerNode
  · subst hc
    unfold nsHeld nsBalance
    rw [dlookup_dmodify_self, hp]
    simp
  · unfold nsHeld nsBalance
    rw [dlookup_dmodify_ne _ _ _ _ hc]
    simp [hc]

theorem resSum_filter_le (l : List (String × Reservation)) (q : String × Reservation → Bool)
    (p : String) (h : ∀ kr ∈ l, 0 < (kr : String × Reservation).2.points) :
    resSum (l.filter q) p ≤ resSum l p := by
  induction l with
  | nil => simp [resSum]
  | cons hd tl ih =>
    obtain ⟨k₁, r₁⟩ := hd
    have hpos : ∀ kr ∈ tl, 0 < (kr : String × Reservation).2.points :=
      fun kr hkr => h kr (List.mem_cons_of_mem _ hkr)
    have h₀ : 0 < r₁.points := h _ (List.mem_cons_self _ _)
    have ihs := ih hpos
    rw [resSum_cons]
    cases hq : q (k₁, r₁) with
    | true =>
      rw [List.filter_cons_of_pos hq, resSum_cons]
      by_cases hp : r₁.payerNode = p
      · rw [if_pos hp]; omega
      · rw [if_neg hp]; omega
    | false =>
      rw [List.filter_cons_of_neg (by simp [hq])]
      by_cases hp : r₁.payerNode = p
      · rw [if_pos hp]; omega
      · rw [if_neg hp]; omega

theorem dlookup_filter_eq_none (k : String) (l : List (String × α)) (v : α)
    (q : String × α → Bool) (hnd : (l.map Prod.fst).Nodup)
    (hv : dlookup k l = some v) (hq : q (k, v) = false) :
    dlookup k (l.filter q) = Option.none := by
  induction l with
  | nil => simp [dlookup] at hv
  | cons hd tl ih =>
    obtain ⟨k₁, v₁⟩ := hd
    simp only [List.map_cons, List.nodup_cons] at hnd
    by_cases h : k₁ = k
    · subst h
      have hv₁ : v₁ = v := by simpa [dlookup] using hv
      subst hv₁
      rw [List.filter_cons_of_neg (by simp [hq])]
      refine dlookup_eq_none_of_not_mem_keys _ _ ?_
      intro hmem
      exact hnd.1 ((List.Sublist.map Prod.fst (List.filter_sublist tl)).mem hmem)
    · simp only [dlookup, if_neg h] at hv
      cases hq₁ : q (k₁, v₁) with
      | true =>
        rw [List.filter_cons_of_pos hq₁]
        simp only [dlookup, if_neg h]
        exact ih hnd.2 hv
      | false =>
        rw [List.filter_cons_of_neg (by simp [hq₁])]
        exact ih hnd.2 hv

theorem refundFold_effect (now : Rat) (E : List (String × Reservation)) :
    ∀ ns : List (String × RegistryEntry),
      (∀ kr ∈ E, (kr : String × Reservation).2.payerNode ≠ "" ∧ 0 < kr.2.points ∧
        (dlookup kr.2.payerNode ns).isSome) →
      (∀ kr ∈ E, resSum E kr.2.payerNode ≤ nsHeld ns kr.2.payerNode) →
      ∀ p, nsHeld (E.foldl (fun ns₁ kr => expireRefund now ns₁ kr.2) ns) p
              = nsHeld ns p - resSum E p ∧
           nsBalance (E.foldl (fun ns₁ kr => expireRefund now ns₁ kr.2) ns) p
              = nsBalance ns p + resSum E p := by
  induction E with
  | nil =>
    intro ns _ _ p
    simp [resSum]
  | cons hd tl ih =>
    intro ns hwf hsum p
    obtain ⟨k, r⟩ := hd
    have hr := hwf (k, r) (List.mem_cons_self _ _)
    have hne : r.payerNode ≠ "" := hr.1
    have hpts : 0 < r.points := hr.2.1
    have hns : (dlookup r.payerNode ns).isSome := hr.2.2
    have hwftl : ∀ kr ∈ tl, 0 < (kr : String × Reservation).2.points :=
      fun kr hkr => (hwf kr (List.mem_cons_of_mem _ hkr)).2.1
    have hcons := hsum (k, r) (List.mem_cons_self _ _)
    have hcons' : resSum ((k, r) :: tl) r.payerNode ≤ nsHeld ns r.payerNode := hcons
    have htl₀ : 0 ≤ resSum tl r.payerNode := resSum_nonneg tl r.payerNode hwftl
    have hself : resSum ((k, r) :: tl) r.payerNode
        = r.points + resSum tl r.payerNode := by
      rw [resSum_cons, if_pos rfl]
    have hple : r.points ≤ nsHeld ns r.payerNode := by omega
    have heff := expireRefund_effect now ns r hne hpts hns
    have heffp : ∀ q, nsHeld (expireRefund now ns r) q
        = if q = r.payerNode then nsHeld ns q - r.points else nsHeld ns q := by
      intro q
      rw [(heff q).1]
      by_cases hq : q = r.payerNode
      · subst hq
        rw [if_pos rfl, if_pos rfl]
        exact max_eq_right (by omega)
      · rw [if_neg hq, if_neg hq]
    have heffb : ∀ q, nsBalance (expireRefund now ns r) q
        = if q = r.payerNode then nsBalance ns q + r.points else nsBalance ns q :=
      fun q => (heff q).2
    have hih := ih (expireRefund now ns r)
      (fun kr hkr => ⟨(hwf kr (List.mem_cons_of_mem _ hkr)).1,
        (hwf kr (List.mem_cons_of_mem _ hkr)).2.1,
        by rw [isSome_expireRefund]; exact (hwf kr (List.mem_cons_of_mem _ hkr)).2.2⟩)
      (fun kr hkr => by
        have hk := hsum kr (List.mem_cons_of_mem _ hkr)
        have hkc : resSum ((k, r) :: tl) kr.2.payerNode ≤ nsHeld ns kr.2.payerNode := hk
        rw [heffp kr.2.payerNode]
        by_cases hq : kr.2.payerNode = r.payerNode
        · rw [if_pos hq]
          rw [hq] at hkc ⊢
          omega
        · rw [if_neg hq]
          have : resSum ((k, r) :: tl) kr.2.payerNode
              = resSum tl kr.2.payerNode := by
            rw [resSum_cons, if_neg (fun he => hq he.symm)]
            omega
          omega)
    have hfold := hih p
    simp only [List.foldl_cons]
    refine ⟨?_, ?_⟩
    · rw [hfold.1, heffp p, resSum_cons]
      by_cases hq : p = r.payerNode
      · rw [if_pos hq, if_pos (hq.symm : r.payerNode = p)]
        omega
      · rw [if_neg hq, if_neg (fun he => hq (he.symm : p = r.payerNode))]
        omega
    · rw [hfold.2, heffb p, resSum_cons]
      by_cases hq : p = r.payerNode
      · rw [if_pos hq, if_pos (hq.symm : r.payerNode = p)]
        omega
      · rw [if_neg hq, if_neg (fun he => hq (he.symm : p = r.payerNode))]
        omega

/-- C4: under the reservation-backing invariant, the TTL sweep removes
every reservation whose (positive) creation time lies more than `ttl`
seconds before the sweep, and for each payer it returns the expired
points to the balance and subtracts them from the held points. -/
theorem claim_C4_expiry_sweep (st : RegistryState) (ttl : Int) (now : Rat)
    (hg : GoodState st) (httl : 0 < ttl) :
    (∀ k r, dlookup k st.reservations = some r → r.createdTs < now - (ttl : Rat) →
      dlookup k (expireReservations st ttl now).reservations = Option.none) ∧
    (∀ p,
      balanceOf (expireReservations st ttl now) p
        = balanceOf st p
          + resSum (st.reservations.filter (fun kr => reservationExpired ttl now kr.2)) p ∧
      heldOf (expireReservations st ttl now) p
        = heldOf st p
          - resSum (st.reservations.filter (fun kr => reservationExpired ttl now kr.2)) p) := by
  have hif : ¬ ttl ≤ 0 := not_le.mpr httl
  have hres : (expireReservations st ttl now).reservations
      = st.reservations.filter (fun kr => !(reservationExpired ttl now kr.2)) := by
    unfold expireReservations
    rw [if_neg hif]
  have hnodes : (expireReservations st ttl now).nodes
      = (st.reservations.filter (fun kr => reservationExpired ttl now kr.2)).foldl
          (fun ns kr => expireRefund now ns kr.2) st.nodes := by
    unfold expireReservations
    rw [if_neg hif]
  have hwf : ∀ kr ∈ st.reservations.filter (fun kr => reservationExpired ttl now kr.2),
      (kr : String × Reservation).2.payerNode ≠ "" ∧ 0 < kr.2.points ∧
      (dlookup kr.2.payerNode st.nodes).isSome := by
    intro kr hkr
    have hmem := (List.mem_filter.mp hkr).1
    have h := hg.2 kr hmem
    exact ⟨h.1, h.2.2.1, h.2.2.2.2.1⟩
  have hsum : ∀ kr ∈ st.reservations.filter (fun kr => reservationExpired ttl now kr.2),
      resSum (st.reservations.filter (fun kr => reservationExpired ttl now kr.2))
        kr.2.payerNode ≤ nsHeld st.nodes kr.2.payerNode := by
    intro kr hkr
    have hmem := (List.mem_filter.mp hkr).1
    have h := hg.2 kr hmem
    have h₁ : resSum st.reservations kr.2.payerNode ≤ heldOf st kr.2.payerNode :=
      h.2.2.2.2.2.2
    have h₂ := resSum_filter_le st.reservations
      (fun kr => reservationExpired ttl now kr.2) kr.2.payerNode
      (fun kr₂ hkr₂ => (hg.2 kr₂ hkr₂).2.2.1)
    rw [heldOf_eq_nsHeld] at h₁
    omega
  refine ⟨?_, ?_⟩
  · intro k r hk hold
    have hmem := dlookup_mem _ _ _ hk
    have hts : 0 < r.createdTs := (hg.2 _ hmem).2.2.2.1
    have hexp : reservationExpired ttl now r = true := by
      simp only [reservationExpired, decide_eq_true_eq]
      exact ⟨ne_of_gt hts, hold⟩
    have hq : (fun kr => !(reservationExpired ttl now (kr : String × Reservation).2)) (k, r)
        = false := by
      simp [hexp]
    rw [hres]
    exact dlookup_filter_eq_none k _ r _ hg.1 hk hq
  · intro p
    have hfold := refundFold_effect now
      (st.reservations.filter (fun kr => reservationExpired ttl now kr.2))
      st.nodes hwf hsum p
    refine ⟨?_, ?_⟩
    · rw [balanceOf_eq_nsBalance, hnodes, hfold.2, ← balanceOf_eq_nsBalance]
    · rw [heldOf_eq_nsHeld, hnodes, hfold.1, ← heldOf_eq_nsHeld]

/-- A ledger with one stale (createdTs 50) and one fresh (createdTs 190)
reservation for the same payer, used to witness the expiry sweep. -/
def sampleExpiryState : RegistryState :=
  { nodes := [("c", { nodeId := "c", balance := 1, heldPoints := 9 }),
              ("n", { nodeId := "n" })],
    reservations := [("r1", ⟨"r1", "c", "n", 5, 50⟩),
                     ("r2", ⟨"r2", "c", "n", 4, 190⟩)] }

/-- Witness for C4: sweeping `sampleExpiryState` with `ttl = 100` at
`now = 200` removes the stale reservation and refunds its payer. -/
theorem claim_C4_expiry_sweep_witness :
    dlookup "r1" (expireReservations sampleExpiryState 100 200).reservations
      = Option.none ∧
    heldOf (expireReservations sampleExpiryState 100 200) "c"
      = heldOf sampleExpiryState "c"
        - resSum (sampleExpiryState.reservations.filter
            (fun kr => reservationExpired 100 200 kr.2)) "c" := by
  have h := claim_C4_expiry_sweep sampleExpiryState 100 200 (by decide) (by decide)
  have hold : ((⟨"r1", "c", "n", 5, 50⟩ : Reservation)).createdTs < 200 - ((100 : Int) : Rat) := by
    show (50 : Rat) < 200 - ((100 : Int) : Rat)
    norm_num
  exact ⟨h.1 "r1" ⟨"r1", "c", "n", 5, 50⟩ (by decide) hold, (h.2 "c").2⟩

/-! ## Capability index and the `list` pipeline (C5, C6) -/

/-- Truthiness of a node's capability value under `cap` (absent ⇒ falsy). -/
def truthyCap (e : RegistryEntry) (cap : String) : Bool :=
  match dlookup cap e.capabilities with
  | some v => v.truthy
  | Option.none => false

/-- One step of the removal loop of `RegistryState._reindex`:
`ids.discard(old.node_id)` followed by dropping the now-empty bucket. -/
def capDiscard (nid cap : String) (idx : List (String × List String)) :
    List (String × List String) :=
  match dlookup cap idx with
  | some ids =>
    if nid ∈ ids then
      if ids.erase nid = [] then dremove cap idx else dinsert cap (ids.erase nid) idx
    else idx
  | Option.none => idx

/-- `self.cap_index.setdefault(cap, set()).add(entry.node_id)`. -/
def capAdd (nid cap : String) (idx : List (String × List String)) :
    List (String × List String) :=
  match dlookup cap idx with
  | some ids => if nid ∈ ids then idx else dinsert cap (ids ++ [nid]) idx
  | Option.none => dinsert cap [nid] idx

/-- `RegistryState._reindex(entry, old)`: drop the old entry's node id
from every bucket it appeared in, then add the new entry's id under each
truthy capability. -/
def reindex (entry : RegistryEntry) (old : Option RegistryEntry)
    (idx : List (String × List String)) : List (String × List String) :=
  entry.capabilities.foldl
    (fun acc cv => if cv.2.truthy then capAdd entry.nodeId cv.1 acc else acc)
    (match old with
     | some o => o.capabilities.foldl (fun acc cv => capDiscard o.nodeId cv.1 acc) idx
     | Option.none => idx)

/-- The counter preservation of `RegistryState.upsert`: the stored entry
keeps the ledger and telemetry counters of any prior entry. -/
def upsertEntry (entry : RegistryEntry) (old : Option RegistryEntry) : RegistryEntry :=
  match old with
  | some o => { entry with
      completedTasks := o.completedTasks,
      earnedPoints := o.earnedPoints,
      balance := o.balance,
      spentPoints := o.spentPoints,
      heldPoints := o.heldPoints,
      successCount := o.successCount,
      failCount := o.failCount,
      totalLatencyMs := o.totalLatencyMs }
  | Option.none => entry

/-- `RegistryState.upsert`: preserve the counters of any prior entry with
the same id, store the entry, rebuild the capability index. -/
def upsert (st : RegistryState) (entry : RegistryEntry) : RegistryState :=
  { st with
    nodes := dinsert entry.nodeId
      (upsertEntry entry (dlookup entry.nodeId st.nodes)) st.nodes,
    capIndex := reindex (upsertEntry entry (dlookup entry.nodeId st.nodes))
      (dlookup entry.nodeId st.nodes) st.capIndex }

/-- Register/update/sync all funnel into `upsert`; a whole history of
upserts starting from the blank registry. -/
def upsertAll (entries : List RegistryEntry) : RegistryState :=
  entries.foldl upsert RegistryState.empty

/-- Membership of a node id in the index bucket of a capability. -/
def indexMem (idx : List (String × List String)) (cap nid : String) : Prop :=
  match dlookup cap idx with
  | some ids => nid ∈ ids
  | Option.none => False

instance (idx : List (String × List String)) (cap nid : String) :
    Decidable (indexMem idx cap nid) := by
  unfold indexMem
  exact match dlookup cap idx with
  | some ids => inferInstanceAs (Decidable (nid ∈ ids))
  | Option.none => inferInstanceAs (Decidable False)

/-- The capability-index invariant: index keys are unique, every bucket
is a duplicate-free set, entries sit under their own dictionary key, and
the index matches truthy capabilities exactly. -/
def IndexInv (st : RegistryState) : Prop :=
  (st.capIndex.map Prod.fst).Nodup ∧
  (∀ cap ids, dlookup cap st.capIndex = some ids → ids.Nodup) ∧
  (∀ k e, dlookup k st.nodes = some e → (e : RegistryEntry).nodeId = k) ∧
  (∀ cap nid, indexMem st.capIndex cap nid ↔
    ∃ e, dlookup nid st.nodes = some e ∧ truthyCap e cap = true)

/-- The per-entry TTL adjustment of `RegistryState.apply_ttl`. -/
def ttlAdjust (ttl : Int) (now : Rat) (e : RegistryEntry) : RegistryEntry :=
  if e.online = true ∧ e.lastSeenTs < now - (ttl : Rat) then { e with online := false } else e

/-- `RegistryState.apply_ttl`: flip stale online nodes to offline. -/
def applyTtl (st : RegistryState) (ttl : Int) (now : Rat) : RegistryState :=
  if ttl ≤ 0 then st
  else { st with nodes := st.nodes.map (fun ke => (ke.1, ttlAdjust ttl now ke.2)) }

/-- `RegistryState.candidates_for_caps`: intersect the index buckets of
all required capabilities and look the surviving ids up in the
directory. -/
def candidatesForCaps (st : RegistryState) (required : List String) : List RegistryEntry :=
  if required = [] then st.nodes.map Prod.snd
  else
    let ids := required.foldl
      (fun acc cap =>
        let capIds := match dlookup cap st.capIndex with
          | some l => l
          | Option.none => []
        match acc with
        | Option.none => some capIds
        | some s => some (s.filter (fun nid => nid ∈ capIds)))
      (Option.none : Option (List String))
    match ids with
    | Option.none => []
    | some s => if s = [] then [] else s.filterMap (fun nid => dlookup nid st.nodes)

/-- Stable ascending insertion by `nodeId` (`nodes.sort(key=… node_id)`). -/
def insertByNodeId (x : RegistryEntry) : List RegistryEntry → List RegistryEntry
  | [] => [x]
  | y :: ys => if x.nodeId < y.nodeId then x :: y :: ys else y :: insertByNodeId x ys

/-- `nodes.sort(key=lambda n: n.node_id)`. -/
def sortByNodeId : List RegistryEntry → List RegistryEntry
  | [] => []
  | x :: xs => insertByNodeId x (sortByNodeId xs)

/-- The fallback used by the `list` handler when the payload carries no
`page` (or a falsy one): `int(payload.get("page", 1) or 1)` then
`page = max(1, page)`.  Note: no upper clamp is applied to `page`. -/
def pageUsed (page : Option Int) : Int :=
  let p := match page with
    | Option.none => 1
    | some v => if v = 0 then 1 else v
  max 1 p

/-- `int(payload.get("pageSize", 50) or 50)` then
`page_size = max(1, min(page_size, 200))`. -/
def pageSizeUsed (pageSize : Option Int) : Int :=
  let s := match pageSize with
    | Option.none => 50
    | some v => if v = 0 then 50 else v
  max 1 (min s 200)

/-- The source node set of the `list` handler: capability candidates when
capabilities are required, else the online or full directory. -/
def listSource (st : RegistryState) (required : List String) (requireOnline : Bool) :
    List RegistryEntry :=
  if required ≠ [] then candidatesForCaps st required
  else if requireOnline then (st.nodes.map Prod.snd).filter (fun e => e.online)
  else st.nodes.map Prod.snd

/-- The post-source online filter of the `list` handler. -/
def listFiltered (st : RegistryState) (required : List String) (requireOnline : Bool) :
    List RegistryEntry :=
  if requireOnline then (listSource st required requireOnline).filter (fun e => e.online)
  else listSource st required requireOnline

/-- The node list computed by the `list` handler of the registry server
(capability filter, online filter, stable `nodeId` sort, pagination). -/
def listNodes (st : RegistryState) (required : List String) (requireOnline : Bool)
    (page pageSize : Int) : List RegistryEntry :=
  ((sortByNodeId (listFiltered st required requireOnline)).drop
    ((page - 1) * pageSize).toNat).take pageSize.toNat

/-- The full `list` request pipeline: TTL sweep, then the node list with
the page values actually used. -/
def listHandlerNodes (st : RegistryState) (required : List String) (requireOnline : Bool)
    (page pageSize : Option Int) (ttl : Int) (now : Rat) : List RegistryEntry :=
  listNodes (applyTtl st ttl now) required requireOnline (pageUsed page) (pageSizeUsed pageSize)

/-- C6 counterexample: a `list` request with `page = 500` uses
`page = 500` unchanged — the handler never clamps `page` from above, so
the claim that the used page lies in `[1, 200]` is false. -/
theorem claim_C6_page_clamp_counterexample :
    pageUsed (some 500) = 500 ∧ ¬(pageUsed (some 500) ≤ 200) := by decide

/-- C6 amended: the `pageSize` actually used is clamped to `[1, 200]`,
while `page` is only clamped from below to `≥ 1` (it has no upper
bound). -/
theorem claim_C6_clamp_amended (page pageSize : Option Int) :
    1 ≤ pageUsed page ∧ 1 ≤ pageSizeUsed pageSize ∧ pageSizeUsed pageSize ≤ 200 := by
  refine ⟨le_max_left _ _, le_max_left _ _, ?_⟩
  unfold pageSizeUsed
  exact max_le (by norm_num) (min_le_right _ _)

/-- Structural sanity of the capability index: unique keys, duplicate-free
buckets. -/
def IdxOk (idx : List (String × List String)) : Prop :=
  (idx.map Prod.fst).Nodup ∧ ∀ cap ids, dlookup cap idx = some ids → ids.Nodup

theorem erase_eq_nil_eq_singleton (l : List String) (b : String) (hb : b ∈ l)
    (h : l.erase b = []) : l = [b] := by
  cases l with
  | nil => simp at hb
  | cons a tl =>
    rw [List.erase_cons] at h
    by_cases hab : a = b
    · subst hab
      simp only [beq_self_eq_true, if_true] at h
      rw [h]
    · rw [if_neg (by simpa using hab)] at h
      exact absurd h (by simp)

theorem idxOk_capDiscard (nid₀ cap₀ : String) (idx : List (String × List String))
    (hok : IdxOk idx) : IdxOk (capDiscard nid₀ cap₀ idx) := by
  unfold capDiscard
  split
  · rename_i ids h₀
    by_cases hmem : nid₀ ∈ ids
    · rw [if_pos hmem]
      by_cases hemp : ids.erase nid₀ = []
      · rw [if_pos hemp]
        refine ⟨nodup_keys_dremove _ _ hok.1, ?_⟩
        intro cap ids₂ hc
        by_cases hcc : cap = cap₀
        · subst hcc
          rw [dlookup_dremove_self_of_nodup _ _ hok.1] at hc
          exact absurd hc (by simp)
        · rw [dlookup_dremove_ne _ _ _ hcc] at hc
          exact hok.2 _ _ hc
      · rw [if_neg hemp]
        refine ⟨nodup_keys_dinsert _ _ _ hok.1, ?_⟩
        intro cap ids₂ hc
        by_cases hcc : cap = cap₀
        · subst hcc
          rw [dlookup_dinsert_self] at hc
          injection hc with hc
          subst hc
          exact (hok.2 _ _ h₀).erase _
        · rw [dlookup_dinsert_ne _ _ _ _ hcc] at hc
          exact hok.2 _ _ hc
    · rw [if_neg hmem]
      exact hok
  · exact hok

theorem idxOk_capAdd (nid₀ cap₀ : String) (idx : List (String × List String))
    (hok : IdxOk idx) : IdxOk (capAdd nid₀ cap₀ idx) := by
  unfold capAdd
  split
  · rename_i ids h₀
    by_cases hmem : nid₀ ∈ ids
    · rw [if_pos hmem]
      exact hok
    · rw [if_neg hmem]
      refine ⟨nodup_keys_dinsert _ _ _ hok.1, ?_⟩
      intro cap ids₂ hc
      by_cases hcc : cap = cap₀
      · subst hcc
        rw [dlookup_dinsert_self] at hc
        injection hc with hc
        subst hc
        simp only [List.nodup_append, List.nodup_singleton]
        refine ⟨hok.2 _ _ h₀, by simp, ?_⟩
        intro a ha hb
        simp only [List.mem_singleton] at hb
        subst hb
        exact hmem ha
      · rw [dlookup_dinsert_ne _ _ _ _ hcc] at hc
        exact hok.2 _ _ hc
  · rename_i h₀
    refine ⟨nodup_keys_dinsert _ _ _ hok.1, ?_⟩
    intro cap ids₂ hc
    by_cases hcc : cap = cap₀
    · subst hcc
      rw [dlookup_dinsert_self] at hc
      injection hc with hc
      subst hc
      simp
    · rw [dlookup_dinsert_ne _ _ _ _ hcc] at hc
      exact hok.2 _ _ hc

theorem indexMem_capDiscard (nid₀ cap₀ : String) (idx : List (String × List String))
    (hok : IdxOk idx) (cap nid : String) :
    indexMem (capDiscard nid₀ cap₀ idx) cap nid ↔
      (indexMem idx cap nid ∧ ¬(cap = cap₀ ∧ nid = nid₀)) := by
  unfold capDiscard
  split
  · rename_i ids h₀
    by_cases hmem : nid₀ ∈ ids
    · rw [if_pos hmem]
      by_cases hemp : ids.erase nid₀ = []
      · rw [if_pos hemp]
        have hids : ids = [nid₀] := erase_eq_nil_eq_singleton ids nid₀ hmem hemp
        subst hids
        by_cases hcc : cap = cap₀
        · subst hcc
          unfold indexMem
          rw [dlookup_dremove_self_of_nodup _ _ hok.1, h₀]
          simp
        · unfold indexMem
          rw [dlookup_dremove_ne _ _ _ hcc]
          constructor
          · intro h
            exact ⟨h, fun hcon => hcc hcon.1⟩
          · exact fun h => h.1
      · rw [if_neg hemp]
        by_cases hcc : cap = cap₀
        · subst hcc
          unfold indexMem
          rw [dlookup_dinsert_self, h₀]
          show nid ∈ ids.erase nid₀ ↔ nid ∈ ids ∧ ¬(cap = cap ∧ nid = nid₀)
          rw [List.Nodup.mem_erase_iff (hok.2 _ _ h₀)]
          constructor
          · rintro ⟨hne, hin⟩
            exact ⟨hin, fun hcon => hne hcon.2⟩
          · rintro ⟨hin, hncon⟩
            exact ⟨fun hne => hncon ⟨rfl, hne⟩, hin⟩
        · unfold indexMem
          rw [dlookup_dinsert_ne _ _ _ _ hcc]
          constructor
          · intro h
            exact ⟨h, fun hcon => hcc hcon.1⟩
          · exact fun h => h.1
    · rw [if_neg hmem]
      constructor
      · intro h
        refine ⟨h, ?_⟩
        rintro ⟨rfl, rfl⟩
        unfold indexMem at h
        rw [h₀] at h
        exact hmem h
      · exact fun h => h.1
  · rename_i h₀
    constructor
    · intro h
      refine ⟨h, ?_⟩
      rintro ⟨rfl, rfl⟩
      unfold indexMem at h
      rw [h₀] at h
      exact h
    · exact fun h => h.1

theorem indexMem_capAdd (nid₀ cap₀ : String) (idx : List (String × List String))
    (cap nid : String) :
    indexMem (capAdd nid₀ cap₀ idx) cap nid ↔
      (indexMem idx cap nid ∨ (cap = cap₀ ∧ nid = nid₀)) := by
  unfold capAdd
  split
  · rename_i ids h₀
    by_cases hmem : nid₀ ∈ ids
    · rw [if_pos hmem]
      by_cases hcc : cap = cap₀
      · subst hcc
        unfold indexMem
        rw [h₀]
        constructor
        · exact fun h => Or.inl h
        · rintro (h | ⟨_, rfl⟩)
          · exact h
          · exact hmem
      · constructor
        · exact fun h => Or.inl h
        · rintro (h | ⟨rfl, rfl⟩)
          · exact h
          · exact absurd rfl hcc
    · rw [if_neg hmem]
      by_cases hcc : cap = cap₀
      · subst hcc
        unfold indexMem
        rw [dlookup_dinsert_self, h₀]
        simp [eq_comm]
      · unfold indexMem
        rw [dlookup_dinsert_ne _ _ _ _ hcc]
        constructor
        · exact fun h => Or.inl h
        · rintro (h | ⟨rfl, rfl⟩)
          · exact h
          · exact absurd rfl hcc
  · rename_i h₀
    by_cases hcc : cap = cap₀
    · subst hcc
      unfold indexMem
      rw [dlookup_dinsert_self, h₀]
      simp [eq_comm]
    · unfold indexMem
      rw [dlookup_dinsert_ne _ _ _ _ hcc]
      constructor
      · exact fun h => Or.inl h
      · rintro (h | ⟨rfl, rfl⟩)
        · exact h
        · exact absurd rfl hcc

theorem upsertEntry_capabilities (entry : RegistryEntry) (old : Option RegistryEntry) :
    (upsertEntry entry old).capabilities = entry.capabilities := by
  unfold upsertEntry
  cases old <;> rfl

theorem upsertEntry_nodeId (entry : RegistryEntry) (old : Option RegistryEntry) :
    (upsertEntry entry old).nodeId = entry.nodeId := by
  unfold upsertEntry
  cases old <;> rfl

theorem truthyCap_iff (e : RegistryEntry) (cap : String) :
    truthyCap e cap = true ↔
      ∃ v, dlookup cap e.capabilities = some v ∧ v.truthy = true := by
  unfold truthyCap
  cases h : dlookup cap e.capabilities with
  | none =>
    simp
  | some v =>
    constructor
    · intro hv
      exact ⟨v, rfl, hv⟩
    · rintro ⟨v₂, hv₂, ht⟩
      injection hv₂ with hv₂
      subst hv₂
      exact ht

theorem idxOk_discardFold (oid : String) (K : List (String × PyVal)) :
    ∀ idx, IdxOk idx →
      IdxOk (K.foldl (fun acc cv => capDiscard oid cv.1 acc) idx) := by
  induction K with
  | nil => exact fun idx h => h
  | cons hd tl ih =>
    intro idx h
    simp only [List.foldl_cons]
    exact ih _ (idxOk_capDiscard _ _ _ h)

theorem idxOk_addFold (eid : String) (C : List (String × PyVal)) :
    ∀ idx, IdxOk idx →
      IdxOk (C.foldl (fun acc cv => if cv.2.truthy then capAdd eid cv.1 acc else acc) idx) := by
  induction C with
  | nil => exact fun idx h => h
  | cons hd tl ih =>
    intro idx h
    simp only [List.foldl_cons]
    by_cases hv : hd.2.truthy
    · rw [if_pos hv]
      exact ih _ (idxOk_capAdd _ _ _ h)
    · rw [if_neg hv]
      exact ih _ h

theorem indexMem_discardFold (oid : String) (K : List (String × PyVal)) :
    ∀ idx, IdxOk idx → ∀ cap nid,
      indexMem (K.foldl (fun acc cv => capDiscard oid cv.1 acc) idx) cap nid ↔
        (indexMem idx cap nid ∧ ¬(nid = oid ∧ cap ∈ K.map Prod.fst)) := by
  induction K with
  | nil =>
    intro idx h cap nid
    simp
  | cons hd tl ih =>
    intro idx h cap nid
    simp only [List.foldl_cons]
    rw [ih _ (idxOk_capDiscard _ _ _ h) cap nid]
    rw [indexMem_capDiscard _ _ _ h]
    simp only [List.map_cons, List.mem_cons]
    constructor
    · rintro ⟨⟨him, hn₁⟩, hn₂⟩
      refine ⟨him, ?_⟩
      rintro ⟨rfl, (hc | hc)⟩
      · exact hn₁ ⟨hc, rfl⟩
      · exact hn₂ ⟨rfl, hc⟩
    · rintro ⟨him, hn⟩
      refine ⟨⟨him, ?_⟩, ?_⟩
      · rintro ⟨rfl, rfl⟩
        exact hn ⟨rfl, Or.inl rfl⟩
      · rintro ⟨rfl, hc⟩
        exact hn ⟨rfl, Or.inr hc⟩

theorem indexMem_addFold (eid : String) (C : List (String × PyVal))
    (hnd : (C.map Prod.fst).Nodup) :
    ∀ idx cap nid,
      indexMem (C.foldl (fun acc cv => if cv.2.truthy then capAdd eid cv.1 acc else acc)
          idx) cap nid ↔
        (indexMem idx cap nid ∨
          (nid = eid ∧ ∃ v, dlookup cap C = some v ∧ v.truthy = true)) := by
  induction C with
  | nil =>
    intro idx cap nid
    simp [dlookup]
  | cons hd tl ih =>
    obtain ⟨c, v⟩ := hd
    simp only [List.map_cons, List.nodup_cons] at hnd
    intro idx cap nid
    simp only [List.foldl_cons]
    by_cases hv : ((c, v) : String × PyVal).2.truthy
    · rw [if_pos hv]
      rw [ih hnd.2 (capAdd eid c idx) cap nid]
      rw [indexMem_capAdd]
      have hv' : v.truthy = true := hv
      by_cases hc : c = cap
      · subst hc
        have htl : dlookup c tl = Option.none :=
          dlookup_eq_none_of_not_mem_keys _ _ hnd.1
        have hdc : dlookup c ((c, v) :: tl) = some v := by simp [dlookup]
        rw [hdc, htl]
        constructor
        · rintro ((him | ⟨_, rfl⟩) | ⟨rfl, ⟨v₂, hv₂, _⟩⟩)
          · exact Or.inl him
          · exact Or.inr ⟨rfl, v, rfl, hv'⟩
          · exact absurd hv₂ (by simp)
        · rintro (him | ⟨rfl, ⟨v₂, hv₂, ht₂⟩⟩)
          · exact Or.inl (Or.inl him)
          · exact Or.inl (Or.inr ⟨rfl, rfl⟩)
      · have hdc : dlookup cap ((c, v) :: tl) = dlookup cap tl := by
          simp [dlookup, hc]
        rw [hdc]
        constructor
        · rintro ((him | ⟨rfl, rfl⟩) | ⟨rfl, hex⟩)
          · exact Or.inl him
          · exact absurd rfl hc
          · exact Or.inr ⟨rfl, hex⟩
        · rintro (him | ⟨rfl, hex⟩)
          · exact Or.inl (Or.inl him)
          · exact Or.inr ⟨rfl, hex⟩
    · rw [if_neg hv]
      rw [ih hnd.2 idx cap nid]
      have hv' : v.truthy = false := by
        cases hvt : v.truthy with
        | true => exact absurd hvt hv
        | false => rfl
      by_cases hc : c = cap
      · subst hc
        have htl : dlookup c tl = Option.none :=
          dlookup_eq_none_of_not_mem_keys _ _ hnd.1
        have hdc : dlookup c ((c, v) :: tl) = some v := by simp [dlookup]
        rw [hdc, htl]
        constructor
        · rintro (him | ⟨rfl, ⟨v₂, hv₂, _⟩⟩)
          · exact Or.inl him
          · exact absurd hv₂ (by simp)
        · rintro (him | ⟨rfl, ⟨v₂, hv₂, ht₂⟩⟩)
          · exact Or.inl him
          · injection hv₂ with hv₂
            subst hv₂
            rw [hv'] at ht₂
            exact absurd ht₂ (by simp)
      · have hdc : dlookup cap ((c, v) :: tl) = dlookup cap tl := by
          simp [dlookup, hc]
        rw [hdc]

theorem indexInv_upsert (st : RegistryState) (entry : RegistryEntry)
    (hinv : IndexInv st) (hcaps : (entry.capabilities.map Prod.fst).Nodup) :
    IndexInv (upsert st entry) := by
  obtain ⟨hknd, hbnd, hkeyed, hwix⟩ := hinv
  have hok : IdxOk st.capIndex := ⟨hknd, hbnd⟩
  have hcaps₂ : ((upsertEntry entry (dlookup entry.nodeId st.nodes)).capabilities.map
      Prod.fst).Nodup := by
    rw [upsertEntry_capabilities]
    exact hcaps
  have hidx : (upsert st entry).capIndex
      = reindex (upsertEntry entry (dlookup entry.nodeId st.nodes))
          (dlookup entry.nodeId st.nodes) st.capIndex := rfl
  have hnds : (upsert st entry).nodes
      = dinsert entry.nodeId (upsertEntry entry (dlookup entry.nodeId st.nodes))
          st.nodes := rfl
  have hokIdx : IdxOk (upsert st entry).capIndex := by
    rw [hidx]
    unfold reindex
    cases hold : dlookup entry.nodeId st.nodes with
    | none => exact idxOk_addFold _ _ _ hok
    | some o =>
      exact idxOk_addFold _ _ _ (idxOk_discardFold o.nodeId o.capabilities st.capIndex hok)
  refine ⟨hokIdx.1, hokIdx.2, ?_, ?_⟩
  · intro k e hke
    rw [hnds] at hke
    by_cases hk : k = entry.nodeId
    · subst hk
      rw [dlookup_dinsert_self] at hke
      injection hke with hke
      subst hke
      rw [upsertEntry_nodeId]
    · rw [dlookup_dinsert_ne _ _ _ _ hk] at hke
      exact hkeyed _ _ hke
  · intro cap nid
    rw [hidx, hnds]
    unfold reindex
    rw [indexMem_addFold _ _ hcaps₂ _ cap nid]
    rw [upsertEntry_nodeId]
    cases hold : dlookup entry.nodeId st.nodes with
    | none =>
      by_cases hn : nid = entry.nodeId
      · subst hn
        rw [dlookup_dinsert_self]
        constructor
        · rintro (him | ⟨_, hex⟩)
          · exfalso
            have him₂ : indexMem st.capIndex cap entry.nodeId := him
            obtain ⟨e, he, _⟩ := (hwix cap entry.nodeId).mp him₂
            rw [hold] at he
            exact absurd he (by simp)
          · refine ⟨upsertEntry entry Option.none, rfl, ?_⟩
            rw [truthyCap_iff, upsertEntry_capabilities]
            exact hex
        · rintro ⟨e, he, ht⟩
          injection he with he
          subst he
          rw [truthyCap_iff, upsertEntry_capabilities] at ht
          exact Or.inr ⟨rfl, ht⟩
      · rw [dlookup_dinsert_ne _ _ _ _ hn]
        constructor
        · rintro (him | ⟨hco, _⟩)
          · exact (hwix cap nid).mp him
          · exact absurd hco hn
        · intro hex
          exact Or.inl ((hwix cap nid).mpr hex)
    | some o =>
      have hoid : o.nodeId = entry.nodeId := hkeyed _ _ hold
      have hdisc : ∀ nid₂,
          (indexMem (o.capabilities.foldl (fun acc cv => capDiscard o.nodeId cv.1 acc)
            st.capIndex) cap nid₂) ↔
          (indexMem st.capIndex cap nid₂ ∧
            ¬(nid₂ = o.nodeId ∧ cap ∈ o.capabilities.map Prod.fst)) :=
        fun nid₂ => indexMem_discardFold o.nodeId o.capabilities st.capIndex hok cap nid₂
      by_cases hn : nid = entry.nodeId
      · subst hn
        rw [dlookup_dinsert_self]
        constructor
        · rintro (him | ⟨_, hex⟩)
          · exfalso
            obtain ⟨him₂, hnot⟩ := (hdisc entry.nodeId).mp him
            obtain ⟨e, he, ht⟩ := (hwix cap entry.nodeId).mp him₂
            rw [hold] at he
            injection he with he
            subst he
            rw [truthyCap_iff] at ht
            obtain ⟨v, hvl, _⟩ := ht
            refine hnot ⟨hoid.symm, ?_⟩
            exact List.mem_map.mpr ⟨(cap, v), dlookup_mem _ _ _ hvl, rfl⟩
          · refine ⟨upsertEntry entry (some o), rfl, ?_⟩
            rw [truthyCap_iff, upsertEntry_capabilities]
            exact hex
        · rintro ⟨e, he, ht⟩
          injection he with he
          subst he
          rw [truthyCap_iff, upsertEntry_capabilities] at ht
          exact Or.inr ⟨rfl, ht⟩
      · rw [dlookup_dinsert_ne _ _ _ _ hn]
        constructor
        · rintro (him | ⟨hco, _⟩)
          · exact (hwix cap nid).mp ((hdisc nid).mp him).1
          · exact absurd hco hn
        · intro hex
          refine Or.inl ((hdisc nid).mpr ⟨(hwix cap nid).mpr hex, ?_⟩)
          rintro ⟨hno, _⟩
          rw [hoid] at hno
          exact hn hno

theorem indexInv_empty : IndexInv RegistryState.empty := by
  refine ⟨by simp [RegistryState.empty], ?_, ?_, ?_⟩
  · intro cap ids h
    simp [RegistryState.empty, dlookup] at h
  · intro k e h
    simp [RegistryState.empty, dlookup] at h
  · intro cap nid
    constructor
    · intro h
      unfold indexMem at h
      simp [RegistryState.empty, dlookup] at h
    · rintro ⟨e, he, _⟩
      simp [RegistryState.empty, dlookup] at he

theorem indexInv_upsertAll (entries : List RegistryEntry)
    (hcaps : ∀ e ∈ entries, ((e : RegistryEntry).capabilities.map Prod.fst).Nodup) :
    IndexInv (upsertAll entries) := by
  have hgen : ∀ (l : List RegistryEntry) (st : RegistryState),
      (∀ e ∈ l, ((e : RegistryEntry).capabilities.map Prod.fst).Nodup) →
      IndexInv st → IndexInv (l.foldl upsert st) := by
    intro l
    induction l with
    | nil => exact fun st _ h => h
    | cons hd tl ih =>
      intro st hc h
      simp only [List.foldl_cons]
      exact ih _ (fun e he => hc e (List.mem_cons_of_mem _ he))
        (indexInv_upsert st hd h (hc hd (List.mem_cons_self _ _)))
  exact hgen entries RegistryState.empty hcaps indexInv_empty

theorem dlookup_map_value (f : RegistryEntry → RegistryEntry)
    (l : List (String × RegistryEntry)) (k : String) :
    dlookup k (l.map (fun ke => (ke.1, f ke.2))) = (dlookup k l).map f := by
  induction l with
  | nil => simp [dlookup]
  | cons hd tl ih =>
    obtain ⟨k₁, v₁⟩ := hd
    by_cases h : k₁ = k <;> simp [dlookup, h, ih]

theorem ttlAdjust_capabilities (ttl : Int) (now : Rat) (e : RegistryEntry) :
    (ttlAdjust ttl now e).capabilities = e.capabilities := by
  unfold ttlAdjust
  split <;> rfl

theorem ttlAdjust_nodeId (ttl : Int) (now : Rat) (e : RegistryEntry) :
    (ttlAdjust ttl now e).nodeId = e.nodeId := by
  unfold ttlAdjust
  split <;> rfl

theorem truthyCap_ttlAdjust (ttl : Int) (now : Rat) (e : RegistryEntry) (cap : String) :
    truthyCap (ttlAdjust ttl now e) cap = truthyCap e cap := by
  unfold truthyCap
  rw [ttlAdjust_capabilities]

/-- The TTL sweep keeps the capability index and matches it against the
adjusted directory. -/
theorem indexInv_applyTtl (st : RegistryState) (ttl : Int) (now : Rat)
    (hinv : IndexInv st) : IndexInv (applyTtl st ttl now) := by
  unfold applyTtl
  by_cases h : ttl ≤ 0
  · rw [if_pos h]
    exact hinv
  · rw [if_neg h]
    obtain ⟨hknd, hbnd, hkeyed, hwix⟩ := hinv
    refine ⟨hknd, hbnd, ?_, ?_⟩
    · intro k e hke
      simp only at hke
      rw [dlookup_map_value] at hke
      cases hl : dlookup k st.nodes with
      | none => rw [hl] at hke; exact absurd hke (by simp)
      | some e₀ =>
        rw [hl] at hke
        injection hke with hke
        subst hke
        rw [ttlAdjust_nodeId]
        exact hkeyed _ _ hl
    · intro cap nid
      rw [hwix cap nid]
      simp only
      rw [dlookup_map_value]
      cases hl : dlookup nid st.nodes with
      | none => simp
      | some e₀ =>
        simp only [Option.map_some']
        constructor
        · rintro ⟨e, he, ht⟩
          injection he with he
          subst he
          exact ⟨ttlAdjust ttl now e₀, rfl, by rw [truthyCap_ttlAdjust]; exact ht⟩
        · rintro ⟨e, he, ht⟩
          injection he with he
          subst he
          rw [truthyCap_ttlAdjust] at ht
          exact ⟨e₀, rfl, ht⟩

theorem candidatesForCaps_single (st : RegistryState) (C : String) :
    candidatesForCaps st [C] =
      (match dlookup C st.capIndex with
       | some ids =>
         if ids = [] then [] else ids.filterMap (fun nid => dlookup nid st.nodes)
       | Option.none => []) := by
  unfold candidatesForCaps
  rw [if_neg (by simp)]
  cases hC : dlookup C st.capIndex with
  | none => simp [hC]
  | some ids => simp [hC]

theorem truthyCap_of_mem_candidates (st : RegistryState) (C : String) (e : RegistryEntry)
    (hwix : ∀ cap nid, indexMem st.capIndex cap nid ↔
      ∃ e₂, dlookup nid st.nodes = some e₂ ∧ truthyCap e₂ cap = true)
    (he : e ∈ candidatesForCaps st [C]) : truthyCap e C = true := by
  rw [candidatesForCaps_single] at he
  cases hC : dlookup C st.capIndex with
  | none =>
    rw [hC] at he
    exact absurd he (by simp)
  | some ids =>
    rw [hC] at he
    change e ∈ (if ids = [] then []
      else ids.filterMap (fun nid => dlookup nid st.nodes)) at he
    by_cases hemp : ids = []
    · rw [if_pos hemp] at he
      exact absurd he (by simp)
    · rw [if_neg hemp] at he
      obtain ⟨nid, hnid, hlook⟩ := List.mem_filterMap.mp he
      have him : indexMem st.capIndex C nid := by
        unfold indexMem
        rw [hC]
        exact hnid
      obtain ⟨e₂, he₂, ht⟩ := (hwix C nid).mp him
      rw [hlook] at he₂
      injection he₂ with he₂
      subst he₂
      exact ht

theorem mem_insertByNodeId (x z : RegistryEntry) (l : List RegistryEntry)
    (h : z ∈ insertByNodeId x l) : z = x ∨ z ∈ l := by
  induction l with
  | nil => simpa [insertByNodeId] using h
  | cons y ys ih =>
    unfold insertByNodeId at h
    by_cases hc : x.nodeId < y.nodeId
    · rw [if_pos hc] at h
      rcases List.mem_cons.mp h with h₁ | h₁
      · exact Or.inl h₁
      · exact Or.inr h₁
    · rw [if_neg hc] at h
      rcases List.mem_cons.mp h with h₁ | h₁
      · exact Or.inr (by simp [h₁])
      · rcases ih h₁ with h₂ | h₂
        · exact Or.inl h₂
        · exact Or.inr (List.mem_cons_of_mem _ h₂)

theorem mem_sortByNodeId (z : RegistryEntry) (l : List RegistryEntry)
    (h : z ∈ sortByNodeId l) : z ∈ l := by
  induction l with
  | nil =>
    unfold sortByNodeId at h
    exact h
  | cons y ys ih =>
    unfold sortByNodeId at h
    rcases mem_insertByNodeId y z (sortByNodeId ys) h with h₁ | h₁
    · simp [h₁]
    · exact List.mem_cons_of_mem _ (ih h₁)

/-- C5: after any history of node upserts (register/update/sync all
funnel into `upsert`) from the blank registry, the capability index
contains a node under a capability iff the node's current capability
value is truthy, and a `list` request with `requireCapabilities = [C]`
returns only nodes whose `capabilities[C]` is truthy. -/
theorem claim_C5_capability_index (entries : List RegistryEntry)
    (hcaps : ∀ e ∈ entries, ((e : RegistryEntry).capabilities.map Prod.fst).Nodup) :
    (∀ C nid, indexMem (upsertAll entries).capIndex C nid ↔
      ∃ e, dlookup nid (upsertAll entries).nodes = some e ∧ truthyCap e C = true) ∧
    (∀ (C : String) (requireOnline : Bool) (page pageSize ttl : Int) (now : Rat)
        (n : RegistryEntry),
      n ∈ listNodes (applyTtl (upsertAll entries) ttl now) [C] requireOnline
            page pageSize →
      truthyCap n C = true) := by
  have hinv := indexInv_upsertAll entries hcaps
  refine ⟨hinv.2.2.2, ?_⟩
  intro C requireOnline page pageSize ttl now n hmem
  have hinvT := indexInv_applyTtl (upsertAll entries) ttl now hinv
  unfold listNodes at hmem
  have h₁ := List.drop_subset _ _ (List.take_subset _ _ hmem)
  have h₂ := mem_sortByNodeId _ _ h₁
  have h₃ : n ∈ listSource (applyTtl (upsertAll entries) ttl now) [C] requireOnline := by
    unfold listFiltered at h₂
    cases requireOnline with
    | true =>
      rw [if_pos rfl] at h₂
      exact (List.mem_filter.mp h₂).1
    | false =>
      rw [if_neg (by simp)] at h₂
      exact h₂
  have h₄ : n ∈ candidatesForCaps (applyTtl (upsertAll entries) ttl now) [C] := by
    unfold listSource at h₃
    rw [if_pos (by simp)] at h₃
    exact h₃
  exact truthyCap_of_mem_candidates _ C n hinvT.2.2.2 h₄

/-- A single registered node advertising a truthy `llm.chat` capability. -/
def sampleCapEntry : RegistryEntry :=
  { nodeId := "n1", capabilities := [("llm.chat", PyVal.bool true)], online := true }

/-- Witness for C5: after registering `sampleCapEntry`, the index holds
`n1` under `llm.chat` and the node returned by a capability-filtered
`list` has the truthy capability. -/
theorem claim_C5_capability_index_witness :
    indexMem (upsertAll [sampleCapEntry]).capIndex "llm.chat" "n1" ∧
    truthyCap sampleCapEntry "llm.chat" = true := by
  have h := claim_C5_capability_index [sampleCapEntry] (by decide)
  constructor
  · exact (h.1 "llm.chat" "n1").mpr ⟨sampleCapEntry, by decide, by decide⟩
  · exact h.2 "llm.chat" false 1 50 0 0 sampleCapEntry (by decide)

/-! ## Node service dispatch (C7), `nanobot/universe/node_server.py` -/

/-- A wire envelope as seen by the node service handler. -/
structure Envelope where
  type : String
  id : String
  payload : List (String × PyVal)
  deriving DecidableEq, Repr

/-- `(env.payload or {}).get(key, default)`. -/
def pget (payload : List (String × PyVal)) (key : String) (dflt : PyVal) : PyVal :=
  match dlookup key payload with
  | some v => v
  | Option.none => dflt

/-- `NodeServer._check_token`: accept anything when no token is
configured, else require equality with the configured string. -/
def checkServiceToken (cfgToken : String) (provided : PyVal) : Bool :=
  if cfgToken = "" then true else provided = PyVal.str cfgToken

/-- The reply (or executor invocation) decided by one handler frame. -/
inductive NodeReply where
  | pong (id : String)
  | errorReply (id : String) (message : String)
  | runTask (id : String) (kind prompt : PyVal)
  deriving DecidableEq, Repr

/-- The task kinds the nanobot node service accepts
(`kind not in {"llm.chat", "echo", "nanobot.agent"}` in the source). -/
def nodeAllowedKinds : List PyVal :=
  [.str "llm.chat", .str "echo", .str "nanobot.agent"]

/-- One frame of `NodeServer._handler` up to the point where the task
executor would run: the reply for ping/invalid frames, or the decision
to execute the task. -/
def nodeDispatch (cfgToken : String) (env : Envelope) : NodeReply :=
  if env.type = "ping" then .pong env.id
  else if env.type ≠ "task_run" then .errorReply env.id "expected task_run"
  else if ¬ (checkServiceToken cfgToken (pget env.payload "serviceToken" (.str ""))
      = true) then
    .errorReply env.id "invalid service token"
  else if pget env.payload "kind" (.str "") ∉ nodeAllowedKinds then
    .errorReply env.id ("unsupported kind: " ++ (pget env.payload "kind" (.str "")).render)
  else if ¬ ((pget env.payload "prompt" (.str "")).truthy = true) then
    .errorReply env.id "missing prompt"
  else
    .runTask env.id (pget env.payload "kind" (.str "")) (pget env.payload "prompt" (.str ""))

/-- C7 counterexample: the literal kind `"agent"` is rejected with an
error, while `"nanobot.agent"` — outside the claimed set
`{echo, llm.chat, agent}` — is dispatched to the executor.  The accepted
set is `{echo, llm.chat, nanobot.agent}`, not `{echo, llm.chat, agent}`. -/
theorem claim_C7_kind_set_counterexample :
    nodeDispatch "" ⟨"task_run", "r1", [("kind", .str "agent"), ("prompt", .str "hi")]⟩
      = .errorReply "r1" "unsupported kind: agent" ∧
    nodeDispatch "" ⟨"task_run", "r2", [("kind", .str "nanobot.agent"),
        ("prompt", .str "hi")]⟩
      = .runTask "r2" (.str "nanobot.agent") (.str "hi") := by decide

/-- C7 amended: the dispatch accepts exactly the kinds `echo`,
`llm.chat` and `nanobot.agent`; the executor only runs for a kind in
that set (with the request id preserved), and every `task_run` frame
whose kind is outside the set gets an error envelope carrying the
request id and never reaches the executor. -/
theorem claim_C7_kind_dispatch_amended (cfgToken : String) (env : Envelope) :
    (∀ id kind prompt, nodeDispatch cfgToken env = .runTask id kind prompt →
      id = env.id ∧ kind ∈ nodeAllowedKinds) ∧
    (env.type = "task_run" → pget env.payload "kind" (.str "") ∉ nodeAllowedKinds →
      ∃ msg, nodeDispatch cfgToken env = .errorReply env.id msg) := by
  unfold nodeDispatch
  constructor
  · intro id kind prompt h
    by_cases h₁ : env.type = "ping"
    · rw [if_pos h₁] at h
      exact absurd h (by simp)
    · rw [if_neg h₁] at h
      by_cases h₂ : env.type ≠ "task_run"
      · rw [if_pos h₂] at h
        exact absurd h (by simp)
      · rw [if_neg h₂] at h
        by_cases h₃ : ¬ (checkServiceToken cfgToken
            (pget env.payload "serviceToken" (.str "")) = true)
        · rw [if_pos h₃] at h
          exact absurd h (by simp)
        · rw [if_neg h₃] at h
          by_cases h₄ : pget env.payload "kind" (.str "") ∉ nodeAllowedKinds
          · rw [if_pos h₄] at h
            exact absurd h (by simp)
          · rw [if_neg h₄] at h
            by_cases h₅ : ¬ ((pget env.payload "prompt" (.str "")).truthy = true)
            · rw [if_pos h₅] at h
              exact absurd h (by simp)
            · rw [if_neg h₅] at h
              injection h with hid hkind hprompt
              refine ⟨hid.symm, ?_⟩
              rw [← hkind]
              exact not_not.mp h₄
  · intro htype hkind
    have h₁ : ¬ env.type = "ping" := by rw [htype]; simp
    have h₂ : ¬ env.type ≠ "task_run" := by rw [htype]; simp
    rw [if_neg h₁, if_neg h₂]
    by_cases h₃ : ¬ (checkServiceToken cfgToken
        (pget env.payload "serviceToken" (.str "")) = true)
    · rw [if_pos h₃]
      exact ⟨"invalid service token", rfl⟩
    · rw [if_neg h₃, if_pos hkind]
      exact ⟨"unsupported kind: " ++ (pget env.payload "kind" (.str "")).render, rfl⟩

/-- Witness for the amended C7 at a concrete frame with an unsupported
kind. -/
theorem claim_C7_kind_dispatch_amended_witness :
    ∃ msg, nodeDispatch "" ⟨"task_run", "r3", [("kind", .str "shell.exec"),
        ("prompt", .str "rm")]⟩
      = .errorReply "r3" msg :=
  (claim_C7_kind_dispatch_amended ""
    ⟨"task_run", "r3", [("kind", .str "shell.exec"), ("prompt", .str "rm")]⟩).2
    rfl (by decide)

/-! ## Delegation client node scoring (C8), `nanobot/universe/public_client.py` -/

/-- The node record used by the delegation client (`PublicNode`). -/
structure PublicNode where
  nodeId : String
  pricePoints : Int
  successCount : Int
  failCount : Int
  avgLatencyMs : Int
  deriving DecidableEq, Repr

/-- `_score_node`, with Python float arithmetic modelled over `Rat`:
Laplace-smoothed success rate, the `avg_latency_ms or 1000` default and
the `max(1, price_points or 1)` price floor. -/
def scoreNode (n : PublicNode) : Rat :=
  ((n.successCount + 1 : Int) : Rat) / ((n.successCount + n.failCount + 2 : Int) : Rat)
      * 100
    - (((if n.avgLatencyMs = 0 then 1000 else n.avgLatencyMs) : Int) : Rat) / 1000 * 10
    - ((max 1 n.pricePoints : Int) : Rat) * 2

/-- Modelled from the spec: the literal §4.6 scoring formula
`score = successRate*100 − (avgLatencyMs/1000)*10 − pricePoints*2`,
with no latency default and no price floor; compared against
`scoreNode`, the embedding of the source. -/
def specScoreNode (n : PublicNode) : Rat :=
  ((n.successCount + 1 : Int) : Rat) / ((n.successCount + n.failCount + 2 : Int) : Rat)
      * 100
    - ((n.avgLatencyMs : Int) : Rat) / 1000 * 10
    - ((n.pricePoints : Int) : Rat) * 2

/-- The `max_price_points` pre-filter of `pick_node`. -/
def pickCandidates (nodes : List PublicNode) (maxPricePoints : Option Int) :
    List PublicNode :=
  match maxPricePoints with
  | some m => nodes.filter (fun n => n.pricePoints ≤ m)
  | Option.none => nodes

/-- Stable descending insertion by score
(`sorted(candidates, key=_score_node, reverse=True)`). -/
def insertScoreDesc (x : PublicNode) : List PublicNode → List PublicNode
  | [] => [x]
  | y :: ys => if scoreNode y < scoreNode x then x :: y :: ys else y :: insertScoreDesc x ys

/-- Descending sort by score. -/
def sortByScoreDesc : List PublicNode → List PublicNode
  | [] => []
  | x :: xs => insertScoreDesc x (sortByScoreDesc xs)

/-- `pick_node`: filter by price, sort by score, keep the tie-bucket
within `0.5` of the top score, pick an element (the random draw is
modelled by the `choice` index, reduced modulo the bucket size).
Returns `none` exactly when the source raises `no eligible nodes`. -/
def pickNode (choice : Nat) (nodes : List PublicNode) (maxPricePoints : Option Int) :
    Option PublicNode :=
  match sortByScoreDesc (pickCandidates nodes maxPricePoints) with
  | [] => Option.none
  | s₀ :: rest =>
    ((s₀ :: rest).filter (fun c => scoreNode s₀ - (1/2 : Rat) ≤ scoreNode c)).get?
      (choice % ((s₀ :: rest).filter
        (fun c => scoreNode s₀ - (1/2 : Rat) ≤ scoreNode c)).length)

theorem mem_insertScoreDesc (x z : PublicNode) (l : List PublicNode)
    (h : z ∈ insertScoreDesc x l) : z = x ∨ z ∈ l := by
  induction l with
  | nil =>
    unfold insertScoreDesc at h
    rcases List.mem_cons.mp h with h₁ | h₁
    · exact Or.inl h₁
    · exact absurd h₁ (by simp)
  | cons y ys ih =>
    unfold insertScoreDesc at h
    by_cases hc : scoreNode y < scoreNode x
    · rw [if_pos hc] at h
      rcases List.mem_cons.mp h with h₁ | h₁
      · exact Or.inl h₁
      · exact Or.inr h₁
    · rw [if_neg hc] at h
      rcases List.mem_cons.mp h with h₁ | h₁
      · exact Or.inr (by simp [h₁])
      · rcases ih h₁ with h₂ | h₂
        · exact Or.inl h₂
        · exact Or.inr (List.mem_cons_of_mem _ h₂)

theorem mem_sortByScoreDesc (z : PublicNode) (l : List PublicNode)
    (h : z ∈ sortByScoreDesc l) : z ∈ l := by
  induction l with
  | nil =>
    unfold sortByScoreDesc at h
    exact h
  | cons y ys ih =>
    unfold sortByScoreDesc at h
    rcases mem_insertScoreDesc y z (sortByScoreDesc ys) h with h₁ | h₁
    · simp [h₁]
    · exact List.mem_cons_of_mem _ (ih h₁)

theorem sortByScoreDesc_eq_nil (l : List PublicNode) (h : sortByScoreDesc l = []) :
    l = [] := by
  cases l with
  | nil => rfl
  | cons x xs =>
    exfalso
    unfold sortByScoreDesc at h
    cases hs : sortByScoreDesc xs with
    | nil =>
      rw [hs] at h
      unfold insertScoreDesc at h
      exact absurd h (by simp)
    | cons y ys =>
      rw [hs] at h
      unfold insertScoreDesc at h
      by_cases hc : scoreNode y < scoreNode x
      · rw [if_pos hc] at h
        exact absurd h (by simp)
      · rw [if_neg hc] at h
        exact absurd h (by simp)

theorem le_head_sortByScoreDesc (l : List PublicNode) (s₀ : PublicNode)
    (rest : List PublicNode) (hs : sortByScoreDesc l = s₀ :: rest) :
    ∀ z ∈ l, scoreNode z ≤ scoreNode s₀ := by
  induction l generalizing s₀ rest with
  | nil => simp [sortByScoreDesc] at hs
  | cons x xs ih =>
    unfold sortByScoreDesc at hs
    cases hxs : sortByScoreDesc xs with
    | nil =>
      have hnil := sortByScoreDesc_eq_nil xs hxs
      subst hnil
      rw [hxs] at hs
      unfold insertScoreDesc at hs
      injection hs with h₁ h₂
      subst h₁
      intro z hz
      rcases List.mem_cons.mp hz with h₃ | h₃
      · rw [h₃]
      · exact absurd h₃ (by simp)
    | cons y ys =>
      rw [hxs] at hs
      have hy := ih y ys hxs
      unfold insertScoreDesc at hs
      by_cases hc : scoreNode y < scoreNode x
      · rw [if_pos hc] at hs
        injection hs with h₁ h₂
        subst h₁
        intro z hz
        rcases List.mem_cons.mp hz with h₃ | h₃
        · rw [h₃]
        · exact le_trans (hy z h₃) (le_of_lt hc)
      · rw [if_neg hc] at hs
        injection hs with h₁ h₂
        subst h₁
        intro z hz
        rcases List.mem_cons.mp hz with h₃ | h₃
        · rw [h₃]
          exact not_lt.mp hc
        · exact hy z h₃

/-- A candidate with a fresh stats record (`avg_latency_ms = 0`), where the
source's `or 1000` default diverges from the literal spec formula. -/
def sampleNodeA : PublicNode :=
  { nodeId := "a", pricePoints := 1, successCount := 0, failCount := 0, avgLatencyMs := 0 }

/-- A candidate with a measured 100 ms latency. -/
def sampleNodeB : PublicNode :=
  { nodeId := "b", pricePoints := 1, successCount := 0, failCount := 0, avgLatencyMs := 100 }

theorem scoreNode_sampleNodeA : scoreNode sampleNodeA = 38 := by
  simp only [scoreNode, sampleNodeA]
  norm_num

theorem scoreNode_sampleNodeB : scoreNode sampleNodeB = 47 := by
  simp only [scoreNode, sampleNodeB]
  norm_num

theorem specScoreNode_sampleNodeA : specScoreNode sampleNodeA = 48 := by
  simp only [specScoreNode, sampleNodeA]
  norm_num

theorem specScoreNode_sampleNodeB : specScoreNode sampleNodeB = 47 := by
  simp only [specScoreNode, sampleNodeB]
  norm_num

theorem sort_sampleNodes :
    sortByScoreDesc [sampleNodeA, sampleNodeB] = [sampleNodeB, sampleNodeA] := by
  simp only [sortByScoreDesc, insertScoreDesc, scoreNode_sampleNodeA, scoreNode_sampleNodeB]
  norm_num

theorem pick_sampleNodes :
    pickNode 0 [sampleNodeA, sampleNodeB] Option.none = some sampleNodeB := by
  unfold pickNode
  have hc : pickCandidates [sampleNodeA, sampleNodeB] Option.none
      = [sampleNodeA, sampleNodeB] := rfl
  rw [hc, sort_sampleNodes]
  simp only [List.filter_cons, List.filter_nil, scoreNode_sampleNodeA, scoreNode_sampleNodeB,
    decide_eq_true_eq]
  norm_num

/-- C8: the claim asserts the literal scoring formula
`successRate*100 − (avgLatencyMs/1000)*10 − pricePoints*2` and that the
returned node is within `0.5` of the maximum score.  The source instead
substitutes `1000` for a zero `avg_latency_ms` and floors the price at
`1`, so on `[sampleNodeA, sampleNodeB]` the client returns `sampleNodeB`
although, under the claim's formula, `sampleNodeB` is more than `0.5`
below `sampleNodeA`'s top score, and the code's score of `sampleNodeA`
differs from the claim's. -/
theorem claim_C8_score_formula_counterexample :
    pickNode 0 [sampleNodeA, sampleNodeB] Option.none = some sampleNodeB ∧
    specScoreNode sampleNodeB < specScoreNode sampleNodeA - (1/2 : Rat) ∧
    scoreNode sampleNodeA ≠ specScoreNode sampleNodeA := by
  refine ⟨pick_sampleNodes, ?_, ?_⟩
  · rw [specScoreNode_sampleNodeA, specScoreNode_sampleNodeB]
    norm_num
  · rw [scoreNode_sampleNodeA, specScoreNode_sampleNodeA]
    norm_num

/-- C8 (amended): with the source's scoring function `scoreNode` — which
defaults a zero average latency to `1000` ms and floors the price at `1`
point — every node returned by `pick_node` is one of the price-filtered
candidates, respects `max_price_points` when configured, and its
`scoreNode` score is within `0.5` of the maximum over the remaining
candidates. -/
theorem claim_C8_pick_node_amended (choice : Nat) (nodes : List PublicNode)
    (maxPricePoints : Option Int) (n : PublicNode)
    (h : pickNode choice nodes maxPricePoints = some n) :
    n ∈ pickCandidates nodes maxPricePoints ∧
    (∀ m, maxPricePoints = some m → n.pricePoints ≤ m) ∧
    ∀ c ∈ pickCandidates nodes maxPricePoints,
      scoreNode c ≤ scoreNode n + (1/2 : Rat) := by
  unfold pickNode at h
  split at h
  · exact absurd h (by simp)
  · rename_i s₀ rest hs
    have hn : n ∈ (s₀ :: rest).filter
        (fun c => scoreNode s₀ - (1/2 : Rat) ≤ scoreNode c) := List.get?_mem h
    have hmemsort : n ∈ sortByScoreDesc (pickCandidates nodes maxPricePoints) := by
      rw [hs]
      exact (List.mem_filter.mp hn).1
    have hmem := mem_sortByScoreDesc n _ hmemsort
    have hscore : scoreNode s₀ - (1/2 : Rat) ≤ scoreNode n :=
      of_decide_eq_true (List.mem_filter.mp hn).2
    refine ⟨hmem, ?_, ?_⟩
    · intro m hm
      rw [hm] at hmem
      unfold pickCandidates at hmem
      exact of_decide_eq_true (List.mem_filter.mp hmem).2
    · intro c hc
      have hle := le_head_sortByScoreDesc _ _ _ hs c hc
      linarith

/-- Witness for the amended C8 theorem at a concrete input. -/
theorem claim_C8_pick_node_amended_witness :
    sampleNodeA ∈ pickCandidates [sampleNodeA] Option.none ∧
    (∀ m, (Option.none : Option Int) = some m → sampleNodeA.pricePoints ≤ m) ∧
    ∀ c ∈ pickCandidates [sampleNodeA] Option.none,
      scoreNode c ≤ scoreNode sampleNodeA + (1/2 : Rat) :=
  claim_C8_pick_node_amended 0 [sampleNodeA] Option.none sampleNodeA (by
    unfold pickNode
    show (([sampleNodeA]).filter
        (fun c => scoreNode sampleNodeA - (1/2 : Rat) ≤ scoreNode c)).get?
        (0 % (([sampleNodeA]).filter
          (fun c => scoreNode sampleNodeA - (1/2 : Rat) ≤ scoreNode c)).length)
      = some sampleNodeA
    simp only [List.filter_cons, List.filter_nil, scoreNode_sampleNodeA, decide_eq_true_eq]
    norm_num)

/-! ## Relay server (C9, C10), `zerobot/universe/relay_server.py` -/

/-- One entry of `RelayServer._pending`: the client connection (modelled
by a numeric handle), the `client_id` stored from the request envelope,
and the `created_ts` monotonic timestamp. -/
structure PendingEntry where
  clientWs : Nat
  clientId : String
  createdTs : Rat
  deriving DecidableEq, Repr

/-- The relay's mutable state: `_nodes` (node id → connection) and
`_pending` (internal id → pending entry). -/
structure RelayState where
  nodes : List (String × Nat)
  pending : List (String × PendingEntry)
  deriving DecidableEq, Repr

/-- An envelope sent by a relay handler, reduced to destination,
frame type and envelope id (payloads are forwarded unchanged and play
no role in the claims). -/
inductive RelayOut where
  | errorTo (ws : Nat) (id msg : String)
  | taskTo (ws : Nat) (id : String)
  | responseTo (ws : Nat) (id : String)
  | helloOkTo (ws : Nat) (id nodeId : String)
  | silent
  deriving DecidableEq, Repr

/-- `RelayServer._check_token`. -/
def checkRelayToken (cfgToken provided : String) : Bool :=
  if cfgToken = "" then true else provided = cfgToken

/-- The `relay_hello` branch of `_handler`: register the node connection
under `nodeId` (a missing payload field is modelled by `""`, matching the
`if not node_id` falsiness test). -/
def relayHello (cfgToken : String) (st : RelayState) (ws : Nat)
    (envId token nodeId : String) : RelayState × RelayOut :=
  if checkRelayToken cfgToken token = false then
    (st, RelayOut.errorTo ws envId "invalid relay token")
  else if nodeId = "" then
    (st, RelayOut.errorTo ws envId "missing nodeId")
  else
    ({ st with nodes := dinsert nodeId ws st.nodes },
     RelayOut.helloOkTo ws envId nodeId)

/-- The `relay_request` branch of `_handler`: on success, store a pending
entry under the freshly drawn `internalId` (passed as a parameter in
place of `uuid4()`), remembering the client's envelope id as
`client_id`, and forward a `relay_task` carrying `internalId` to the
target node's connection. -/
def relayRequest (cfgToken : String) (st : RelayState) (ws : Nat)
    (envId token target internalId : String) (now : Rat) :
    RelayState × RelayOut :=
  if checkRelayToken cfgToken token = false then
    (st, RelayOut.errorTo ws envId "invalid relay token")
  else if target = "" then
    (st, RelayOut.errorTo ws envId "missing nodeId")
  else
    match dlookup target st.nodes with
    | Option.none => (st, RelayOut.errorTo ws envId "node offline")
    | some nodeWs =>
      ({ st with pending :=
          dinsert internalId ⟨ws, envId, now⟩ st.pending },
       RelayOut.taskTo nodeWs internalId)

/-- The `relay_result` branch of `_handler`: pop the pending entry keyed
by the envelope id and answer the stored client with a `relay_response`
whose id is `entry.get("client_id") or env.id` — the stored client id,
falling back to the node-facing envelope id when the stored id is
falsy. -/
def relayResult (st : RelayState) (envId : String) : RelayState × RelayOut :=
  match dlookup envId st.pending with
  | Option.none => (st, RelayOut.silent)
  | some entry =>
    ({ st with pending := dremove envId st.pending },
     RelayOut.responseTo entry.clientWs
       (if entry.clientId = "" then envId else entry.clientId))

/-- `RelayServer._cleanup_pending`: drop entries older than the TTL and
send each affected client a timeout `relay_response` with id
`client_id or rid`. -/
def cleanupPending (ttl : Int) (now : Rat) (st : RelayState) :
    RelayState × List RelayOut :=
  if ttl ≤ 0 then (st, [])
  else
    ({ st with
        pending :=
          st.pending.filter (fun p => !(decide ((ttl : Rat) < now - p.2.createdTs))) },
     (st.pending.filter (fun p => (ttl : Rat) < now - p.2.createdTs)).map
       (fun p => RelayOut.responseTo p.2.clientWs
         (if p.2.clientId = "" then p.1 else p.2.clientId)))

/-- The `finally:` teardown of `_handler`: remove the node mapping only
when the handler registered some node id, that id is non-empty, and the
mapping still points at this very connection; then drop every pending
entry whose client connection is the closed one. -/
def relayTeardown (st : RelayState) (ws : Nat) (lastNode : Option String) :
    RelayState :=
  { nodes :=
      match lastNode with
      | Option.none => st.nodes
      | some nid =>
        if nid ≠ "" ∧ dlookup nid st.nodes = some ws then
          dremove nid st.nodes
        else
          st.nodes,
    pending := st.pending.filter (fun p => p.2.clientWs ≠ ws) }

/-- Initial relay state for the C9 scenario: node `n1` connected on
handle `7`, nothing pending. -/
def relayStateC9 : RelayState := { nodes := [("n1", 7)], pending := [] }

/-- The C9 scenario, step 1: a client on handle `3` sends a
`relay_request` whose envelope id is the empty string. -/
def relayReqC9 : RelayState × RelayOut :=
  relayRequest "" relayStateC9 3 "" "" "n1" "int-1" 0

/-- The C9 scenario, step 2: the node answers with a `relay_result`
carrying the internal id. -/
def relayResC9 : RelayState × RelayOut :=
  relayResult relayReqC9.1 "int-1"


/-- C9: the claim asserts every `relay_response` carries the id of the
client's original `relay_request`.  A client may send a `relay_request`
whose envelope id is the empty string (`Envelope.from_json` accepts it);
the stored `client_id` is then falsy, so `entry.get("client_id") or
env.id` in the `relay_result` branch falls back to the node-facing
internal id: the client receives a `relay_response` whose id is
`"int-1"`, not its original request id `""`. -/
theorem claim_C9_response_id_counterexample :
    relayReqC9.2 = RelayOut.taskTo 7 "int-1" ∧
    relayResC9.2 = RelayOut.responseTo 3 "int-1" ∧
    "int-1" ≠ ("" : String) := by
  refine ⟨rfl, rfl, by decide⟩

/-- C9 (amended): the `relay_task` forwarded to the node always carries
the freshly drawn internal id; and whenever the pending entry's stored
`client_id` is non-empty — which holds for every client request whose
envelope id is non-empty — the `relay_response` produced for a
`relay_result`, and likewise every timeout response of the pending
sweep, carries that stored client id. -/
theorem claim_C9_relay_ids_amended (cfgToken : String) (st : RelayState)
    (ws : Nat) (envId token target internalId rid : String) (now : Rat)
    (ttl : Int) (entry : PendingEntry)
    (hrid : dlookup rid st.pending = some entry)
    (hcid : entry.clientId ≠ "") :
    (∀ nws tid,
        (relayRequest cfgToken st ws envId token target internalId now).2
          = RelayOut.taskTo nws tid → tid = internalId) ∧
    (relayResult st rid).2 = RelayOut.responseTo entry.clientWs entry.clientId ∧
    (∀ out ∈ (cleanupPending ttl now st).2, ∀ cws i,
        out = RelayOut.responseTo cws i →
        ∃ r e, (r, e) ∈ st.pending ∧ cws = e.clientWs ∧
          (e.clientId ≠ "" → i = e.clientId)) := by
  refine ⟨?_, ?_, ?_⟩
  · intro nws tid h
    unfold relayRequest at h
    split at h
    · exact absurd h (by simp)
    · split at h
      · exact absurd h (by simp)
      · split at h
        · exact absurd h (by simp)
        · rename_i nodeWs hl
          simp only [RelayOut.taskTo.injEq] at h
          exact h.2.symm
  · unfold relayResult
    simp only [hrid]
    rw [if_neg hcid]
  · intro out hout cws i heq
    unfold cleanupPending at hout
    split at hout
    · exact absurd hout (by simp)
    · rcases List.mem_map.mp hout with ⟨p, hp, hfp⟩
      have hpm : p ∈ st.pending := (List.mem_filter.mp hp).1
      rw [heq] at hfp
      simp only [RelayOut.responseTo.injEq] at hfp
      refine ⟨p.1, p.2, ?_, hfp.1.symm, ?_⟩
      · exact hpm
      · intro hne
        rw [← hfp.2, if_neg hne]

/-- Witness state for the amended C9 theorem: a pending entry stored for
internal id `i1` with the client's original request id `c1`. -/
def relayStateC9w : RelayState :=
  { nodes := [("n1", 7)], pending := [("i1", ⟨3, "c1", 0⟩)] }

/-- Witness for the amended C9 theorem at a concrete input. -/
theorem claim_C9_relay_ids_amended_witness :
    (∀ nws tid,
        (relayRequest "" relayStateC9w 3 "c2" "" "n1" "i2" 5).2
          = RelayOut.taskTo nws tid → tid = "i2") ∧
    (relayResult relayStateC9w "i1").2 = RelayOut.responseTo 3 "c1" ∧
    (∀ out ∈ (cleanupPending 120 5 relayStateC9w).2, ∀ cws i,
        out = RelayOut.responseTo cws i →
        ∃ r e, (r, e) ∈ relayStateC9w.pending ∧ cws = e.clientWs ∧
          (e.clientId ≠ "" → i = e.clientId)) :=
  claim_C9_relay_ids_amended "" relayStateC9w 3 "c2" "" "n1" "i2" "i1" 5 120
    ⟨3, "c1", 0⟩ rfl (by decide)

/-- C10: teardown of a relay connection removes a node mapping only when
it still points at the closed connection — a newer registration of the
same node id over another connection survives — it does remove the
mapping when it does still point there, and it drops exactly the pending
entries whose client connection is the closed one. -/
theorem claim_C10_teardown (st : RelayState) (ws : Nat) (lastNode : Option String)
    (hnodup : (st.nodes.map Prod.fst).Nodup) :
    (∀ n w, dlookup n st.nodes = some w → w ≠ ws →
        dlookup n (relayTeardown st ws lastNode).nodes = some w) ∧
    (∀ n, dlookup n (relayTeardown st ws lastNode).nodes ≠ dlookup n st.nodes →
        lastNode = some n ∧ n ≠ "" ∧ dlookup n st.nodes = some ws) ∧
    (∀ nid, lastNode = some nid → nid ≠ "" → dlookup nid st.nodes = some ws →
        dlookup nid (relayTeardown st ws lastNode).nodes = Option.none) ∧
    (∀ p, p ∈ (relayTeardown st ws lastNode).pending ↔
        p ∈ st.pending ∧ p.2.clientWs ≠ ws) := by
  refine ⟨?_, ?_, ?_, ?_⟩
  · intro n w hl hw
    cases lastNode with
    | none => exact hl
    | some nid =>
      by_cases hc : nid ≠ "" ∧ dlookup nid st.nodes = some ws
      · have hn : (relayTeardown st ws (some nid)).nodes = dremove nid st.nodes := by
          show (if nid ≠ "" ∧ dlookup nid st.nodes = some ws then
            dremove nid st.nodes else st.nodes) = dremove nid st.nodes
          rw [if_pos hc]
        rw [hn]
        by_cases hne : n = nid
        · exfalso
          have h₂ := hc.2
          rw [← hne, hl] at h₂
          injection h₂ with h₃
          exact hw h₃
        · rw [dlookup_dremove_ne nid n st.nodes hne]
          exact hl
      · have hn : (relayTeardown st ws (some nid)).nodes = st.nodes := by
          show (if nid ≠ "" ∧ dlookup nid st.nodes = some ws then
            dremove nid st.nodes else st.nodes) = st.nodes
          rw [if_neg hc]
        rw [hn]
        exact hl
  · intro n hch
    cases lastNode with
    | none => exact absurd rfl hch
    | some nid =>
      by_cases hc : nid ≠ "" ∧ dlookup nid st.nodes = some ws
      · by_cases hne : n = nid
        · rw [hne]
          exact ⟨rfl, hc.1, hc.2⟩
        · exfalso
          apply hch
          have hn : (relayTeardown st ws (some nid)).nodes = dremove nid st.nodes := by
            show (if nid ≠ "" ∧ dlookup nid st.nodes = some ws then
              dremove nid st.nodes else st.nodes) = dremove nid st.nodes
            rw [if_pos hc]
          rw [hn]
          exact dlookup_dremove_ne nid n st.nodes hne
      · exfalso
        apply hch
        have hn : (relayTeardown st ws (some nid)).nodes = st.nodes := by
          show (if nid ≠ "" ∧ dlookup nid st.nodes = some ws then
            dremove nid st.nodes else st.nodes) = st.nodes
          rw [if_neg hc]
        rw [hn]
  · intro nid hln hne hl
    rw [hln]
    have hn : (relayTeardown st ws (some nid)).nodes = dremove nid st.nodes := by
      show (if nid ≠ "" ∧ dlookup nid st.nodes = some ws then
        dremove nid st.nodes else st.nodes) = dremove nid st.nodes
      rw [if_pos ⟨hne, hl⟩]
    rw [hn]
    exact dlookup_dremove_self_of_nodup nid st.nodes hnodup
  · intro p
    constructor
    · intro hp
      have hp' : p ∈ st.pending.filter (fun q => q.2.clientWs ≠ ws) := hp
      have h₂ := List.mem_filter.mp hp'
      exact ⟨h₂.1, of_decide_eq_true h₂.2⟩
    · intro h
      show p ∈ st.pending.filter (fun q => q.2.clientWs ≠ ws)
      exact List.mem_filter.mpr ⟨h.1, decide_eq_true h.2⟩

/-- Witness state for C10: two nodes registered, node `n1` rebound to a
newer connection `7`, two pending entries from clients `3` and `4`. -/
def relayStateC10 : RelayState :=
  { nodes := [("n1", 7), ("n2", 8)],
    pending := [("i1", ⟨3, "c1", 0⟩), ("i2", ⟨4, "c2", 0⟩)] }

/-- Witness for the C10 theorem at a concrete input. -/
theorem claim_C10_teardown_witness :
    (∀ n w, dlookup n relayStateC10.nodes = some w → w ≠ 3 →
        dlookup n (relayTeardown relayStateC10 3 (some "n1")).nodes = some w) ∧
    (∀ n, dlookup n (relayTeardown relayStateC10 3 (some "n1")).nodes
          ≠ dlookup n relayStateC10.nodes →
        (some "n1" : Option String) = some n ∧ n ≠ "" ∧
          dlookup n relayStateC10.nodes = some 3) ∧
    (∀ nid, (some "n1" : Option String) = some nid → nid ≠ "" →
        dlookup nid relayStateC10.nodes = some 3 →
        dlookup nid (relayTeardown relayStateC10 3 (some "n1")).nodes = Option.none) ∧
    (∀ p, p ∈ (relayTeardown relayStateC10 3 (some "n1")).pending ↔
        p ∈ relayStateC10.pending ∧ p.2.clientWs ≠ 3) :=
  claim_C10_teardown relayStateC10 3 (some "n1") (by decide)
